import Mathlib

/-!
Verification development for the lyrics-prosody-analyzer repository.

The TypeScript sources (rhyme-utils.ts and lyrics-parser.ts) are embedded
shallowly: strings are `String` / `List Char`, the JS lookup objects become
association lists, and the in-place mutation of verse records in
`determineRhymePattern` is modeled by returning a new verse list.
`String.toLowerCase` is modeled for ASCII letters plus the ten accented
vowels that appear in the code's own tables; `\w` is `[A-Za-z0-9_]`;
`\s` is modeled by the ASCII whitespace characters.
-/

namespace Prosody

/-- JS `\s` whitespace (ASCII part: space, \t, \n, \r, \v, \f). -/
def isWsJS (c : Char) : Bool :=
  c = ' ' || c = '\t' || c = '\n' || c = '\r' || c = Char.ofNat 11 || c = Char.ofNat 12

/-- The ten accented vowels appearing in the code's character classes. -/
def accentChars : List Char := ['à', 'è', 'ì', 'ò', 'ù', 'á', 'é', 'í', 'ó', 'ú']

/-- ASCII apostrophe (the only apostrophe kept by the cleaning regexes). -/
def apos : Char := Char.ofNat 39

/-- JS `String.toLowerCase`, modeled for ASCII letters and the accented
vowels used by the heuristics. -/
def toLowerJS (c : Char) : Char :=
  if 'A' ≤ c ∧ c ≤ 'Z' then Char.ofNat (c.toNat + 32)
  else if c = 'À' then 'à' else if c = 'È' then 'è'
  else if c = 'Ì' then 'ì' else if c = 'Ò' then 'ò'
  else if c = 'Ù' then 'ù' else if c = 'Á' then 'á'
  else if c = 'É' then 'é' else if c = 'Í' then 'í'
  else if c = 'Ó' then 'ó' else if c = 'Ú' then 'ú'
  else c

/-- JS `\w` word characters: `[A-Za-z0-9_]`. -/
def isWordCharJS (c : Char) : Bool :=
  ('a' ≤ c ∧ c ≤ 'z') || ('A' ≤ c ∧ c ≤ 'Z') || ('0' ≤ c ∧ c ≤ '9') || c = '_'

/-- The five plain vowels `aeiou` (lowercase). -/
def isAeiou (c : Char) : Bool :=
  c = 'a' || c = 'e' || c = 'i' || c = 'o' || c = 'u'

/-- `isVowel` from rhyme-utils: `'aeiouAEIOU'.includes(char)`. -/
def isVowelJS (c : Char) : Bool :=
  isAeiou c || c = 'A' || c = 'E' || c = 'I' || c = 'O' || c = 'U'

/-- The consonant class `[bcdfghjklmnpqrstvwxyz]` (with `y`). -/
def isConsY (c : Char) : Bool :=
  c = 'b' || c = 'c' || c = 'd' || c = 'f' || c = 'g' || c = 'h' || c = 'j' ||
  c = 'k' || c = 'l' || c = 'm' || c = 'n' || c = 'p' || c = 'q' || c = 'r' ||
  c = 's' || c = 't' || c = 'v' || c = 'w' || c = 'x' || c = 'y' || c = 'z'

/-- The consonant class `[bcdfghjklmnpqrstvwxz]` (without `y`), used by
`checkAssonance`'s vowel-pattern extraction. -/
def isConsNoY (c : Char) : Bool :=
  c = 'b' || c = 'c' || c = 'd' || c = 'f' || c = 'g' || c = 'h' || c = 'j' ||
  c = 'k' || c = 'l' || c = 'm' || c = 'n' || c = 'p' || c = 'q' || c = 'r' ||
  c = 's' || c = 't' || c = 'v' || c = 'w' || c = 'x' || c = 'z'

/-- Does `hay` start with the sequence `needle`? -/
def startsWithSeq : List Char → List Char → Bool
  | [], _ => true
  | _ :: _, [] => false
  | a :: as, b :: bs => a = b && startsWithSeq as bs

/-- Does `hay` end with the sequence `needle`? -/
def endsWithSeq (needle hay : List Char) : Bool :=
  startsWithSeq needle.reverse hay.reverse

/-- Does `hay` contain `needle` as a contiguous subsequence? -/
def hasSubSeq (needle : List Char) : List Char → Bool
  | [] => startsWithSeq needle []
  | c :: cs => startsWithSeq needle (c :: cs) || hasSubSeq needle cs

/-- JS `String.split` on a character class: every matching element is a
separator, and empty pieces between adjacent separators are kept. -/
def splitOnP2 {α : Type} (p : α → Bool) : List α → List (List α)
  | [] => [[]]
  | a :: as =>
    let r := splitOnP2 p as
    if p a then [] :: r else (a :: r.headD []) :: r.tail

/-- JS `String.trim` (over the modeled whitespace class). -/
def trimChars (l : List Char) : List Char :=
  ((l.dropWhile isWsJS).reverse.dropWhile isWsJS).reverse

/-- `line.trim().split(/\s+/)` with empty tokens discarded: the list of
maximal whitespace-free runs. -/
def jsWords (l : List Char) : List (List Char) :=
  (splitOnP2 isWsJS l).filter (fun w => w ≠ [])

/-- JS object property lookup on an association list. -/
def tlookup {β : Type} (k : List Char) : List (List Char × β) → Option β
  | [] => Option.none
  | (a, b) :: rest => if a = k then some b else tlookup k rest

/-- Boolean list membership (JS `Array.includes`). -/
def memb (x : List Char) (l : List (List Char)) : Bool :=
  l.any (fun y => y = x)

/-! ## rhyme-utils.ts : extractRhymingSyllable -/

/-- The `specialCases` word→key table of `extractRhymingSyllable`. -/
def specialTable : List (List Char × List Char) :=
  [("star".data, "ar".data), ("are".data, "ar".data), ("car".data, "ar".data),
   ("far".data, "ar".data), ("bar".data, "ar".data),
   ("high".data, "igh".data), ("sky".data, "igh".data), ("my".data, "igh".data),
   ("fly".data, "igh".data), ("by".data, "igh".data), ("try".data, "igh".data),
   ("cry".data, "igh".data), ("die".data, "igh".data), ("tie".data, "igh".data),
   ("pie".data, "igh".data), ("lie".data, "igh".data), ("i".data, "igh".data),
   ("why".data, "igh".data), ("guy".data, "igh".data), ("buy".data, "igh".data),
   ("dry".data, "igh".data), ("eye".data, "igh".data), ("spy".data, "igh".data),
   ("shy".data, "igh".data),
   ("topic".data, "ic".data), ("milwaukee".data, "kee".data),
   ("filtro".data, "tro".data), ("dipinto".data, "nto".data),
   ("amico".data, "ico".data), ("sparito".data, "ito".data),
   ("zion".data, "on".data), ("sole".data, "ole".data), ("sali".data, "ali".data)]

/-- The ordered suffix-pattern list of `extractRhymingSyllable`. -/
def patternsList : List (List Char) :=
  ["ing".data, "tion".data, "ness".data, "ful".data, "less".data, "ly".data,
   "ed".data, "er".data, "est".data, "ize".data, "ise".data, "ous".data,
   "able".data, "ible".data, "ight".data, "ar".data, "igh".data]

/-- `/[aeiou][bcdfghjklmnpqrstvwxyz]$/.test(s)`: the last two characters are
a plain vowel followed by a consonant. -/
def endsVowelCons (l : List Char) : Bool :=
  match l.reverse with
  | b :: a :: _ => isAeiou a && isConsY b
  | _ => false

/-- The word cleaning step of `extractRhymingSyllable`:
`word.toLowerCase().replace(/[^\w]/g, '')`. -/
def cleanRhymeWord (word : List Char) : List Char :=
  (word.map toLowerJS).filter isWordCharJS

/-- `extractRhymingSyllable` from rhyme-utils.ts. -/
def extractCore (word : List Char) : List Char :=
  if word = [] then []
  else
    let clean := cleanRhymeWord word
    match tlookup clean specialTable with
    | some k => k
    | none =>
      match patternsList.find? (fun p => endsWithSeq p clean) with
      | some p => p
      | none =>
        if 3 ≤ clean.length then
          let lastThree := clean.drop (clean.length - 3)
          let lastTwo := clean.drop (clean.length - 2)
          if endsVowelCons lastTwo then lastTwo
          else if 4 ≤ clean.length then lastThree else lastTwo
        else clean

/-- String-level wrapper for `extractRhymingSyllable`. -/
def extractRhymingSyllable (word : String) : String :=
  String.mk (extractCore word.data)

/-! ## rhyme-utils.ts : wordsRhyme (broad test) -/

/-- The broad `rhymeGroups` table of `wordsRhyme`. -/
def broadTable : List (List Char × List (List Char)) :=
  [("ar".data, ["are".data, "ar".data]),
   ("are".data, ["ar".data, "are".data]),
   ("ay".data, ["ey".data, "ay".data, "ai".data, "eigh".data]),
   ("ey".data, ["ay".data, "ey".data, "ai".data, "eigh".data]),
   ("ai".data, ["ay".data, "ey".data, "ai".data, "eigh".data]),
   ("eigh".data, ["ay".data, "ey".data, "ai".data, "eigh".data]),
   ("igh".data, ["y".data, "igh".data, "ie".data, "ky".data, "i".data]),
   ("y".data, ["igh".data, "y".data, "ie".data, "ky".data, "i".data]),
   ("ie".data, ["igh".data, "y".data, "ie".data, "ky".data, "i".data]),
   ("ky".data, ["igh".data, "y".data, "ie".data, "ky".data, "i".data]),
   ("i".data, ["igh".data, "y".data, "ie".data, "ky".data, "i".data]),
   ("ow".data, ["ou".data, "ow".data]),
   ("ou".data, ["ow".data, "ou".data]),
   ("ing".data, ["ing".data]),
   ("tro".data, ["tro".data, "nto".data, "ato".data, "eto".data, "oto".data]),
   ("nto".data, ["tro".data, "nto".data, "ato".data, "eto".data, "oto".data]),
   ("ato".data, ["tro".data, "nto".data, "ato".data, "eto".data, "oto".data]),
   ("eto".data, ["tro".data, "nto".data, "ato".data, "eto".data, "oto".data]),
   ("oto".data, ["tro".data, "nto".data, "ato".data, "eto".data, "oto".data]),
   ("ico".data, ["ico".data, "ito".data]),
   ("ito".data, ["ico".data, "ito".data]),
   ("ic".data, ["ic".data, "kee".data]),
   ("kee".data, ["ic".data, "kee".data]),
   ("ight".data, ["ite".data, "ight".data]),
   ("ite".data, ["ight".data, "ite".data])]

/-- `getVowelPattern` from `checkAssonance`:
`syllable.replace(/[bcdfghjklmnpqrstvwxz]/g, '').toLowerCase()`. -/
def vowelPattern (s : List Char) : List Char :=
  (s.filter (fun c => !isConsNoY c)).map toLowerJS

/-- The `vowelSimilarity` table of `checkAssonance`. -/
def vowelSimTable : List (List Char × List (List Char)) :=
  [("o".data, ["o".data, "ao".data, "eo".data, "io".data]),
   ("ao".data, ["o".data, "ao".data, "eo".data, "io".data]),
   ("eo".data, ["o".data, "ao".data, "eo".data, "io".data]),
   ("io".data, ["o".data, "ao".data, "eo".data, "io".data]),
   ("i".data, ["i".data, "ai".data, "ei".data]),
   ("ai".data, ["i".data, "ai".data, "ei".data]),
   ("ei".data, ["i".data, "ai".data, "ei".data]),
   ("e".data, ["e".data, "ee".data, "ie".data]),
   ("ee".data, ["e".data, "ee".data, "ie".data]),
   ("ie".data, ["e".data, "ee".data, "ie".data])]

/-- `checkAssonance` from rhyme-utils.ts. -/
def checkAssonance (s1 s2 : List Char) : Bool :=
  let v1 := vowelPattern s1
  let v2 := vowelPattern s2
  if v1 ≠ [] ∧ v2 ≠ [] then
    if v1 = v2 then true
    else memb v2 ((tlookup v1 vowelSimTable).getD [v1])
  else false

/-- `wordsRhyme` from rhyme-utils.ts (the broad relation test). -/
def wordsRhymeW (word1 word2 : List Char) : Bool :=
  let s1 := extractCore word1
  let s2 := extractCore word2
  if s1 = [] ∨ s2 = [] then false
  else if s1 = s2 then true
  else
    let g1 := (tlookup s1 broadTable).getD [s1]
    let g2 := (tlookup s2 broadTable).getD [s2]
    if g1.any (fun g => memb g g2) then true
    else checkAssonance s1 s2

/-- String-level wrapper for `wordsRhyme`. -/
def wordsRhyme (word1 word2 : String) : Bool :=
  wordsRhymeW word1.data word2.data

/-! ## rhyme-utils.ts : analyzeRhyme (typed test) -/

/-- The four rhyme relations of `analyzeRhyme`. -/
inductive Rel : Type where
  | rhyme
  | assonance
  | consonance
  | none
deriving DecidableEq

/-- The string reported for each relation. -/
def relStr : Rel → String
  | Rel.rhyme => "rhyme"
  | Rel.assonance => "assonance"
  | Rel.consonance => "consonance"
  | Rel.none => "none"

/-- The `perfectRhymeGroups` table of `isPerfectRhyme`. -/
def perfectTable : List (List Char × List (List Char)) :=
  [("ar".data, ["are".data, "ar".data]),
   ("are".data, ["ar".data, "are".data]),
   ("igh".data, ["y".data, "igh".data, "ie".data, "ky".data, "i".data]),
   ("y".data, ["igh".data, "y".data, "ie".data, "ky".data, "i".data]),
   ("ie".data, ["igh".data, "y".data, "ie".data, "ky".data, "i".data]),
   ("ky".data, ["igh".data, "y".data, "ie".data, "ky".data, "i".data]),
   ("i".data, ["igh".data, "y".data, "ie".data, "ky".data, "i".data]),
   ("ow".data, ["ou".data, "ow".data]),
   ("ou".data, ["ow".data, "ou".data]),
   ("ing".data, ["ing".data]),
   ("ight".data, ["ite".data, "ight".data]),
   ("ite".data, ["ight".data, "ite".data])]

/-- `isPerfectRhyme` from rhyme-utils.ts. -/
def isPerfectRhyme (s1 s2 : List Char) : Bool :=
  if s1 = s2 then true
  else
    let g1 := (tlookup s1 perfectTable).getD [s1]
    let g2 := (tlookup s2 perfectTable).getD [s2]
    g1.any (fun g => memb g g2)

/-- The `assonanceGroups` table of `isAssonance`. -/
def assonanceTable : List (List Char × List (List Char)) :=
  [("tro".data, ["nto".data, "ato".data, "eto".data, "oto".data]),
   ("nto".data, ["tro".data, "ato".data, "eto".data, "oto".data]),
   ("ato".data, ["tro".data, "nto".data, "eto".data, "oto".data]),
   ("eto".data, ["tro".data, "nto".data, "ato".data, "oto".data]),
   ("oto".data, ["tro".data, "nto".data, "ato".data, "eto".data]),
   ("ico".data, ["ito".data]),
   ("ito".data, ["ico".data]),
   ("ic".data, ["kee".data]),
   ("kee".data, ["ic".data])]

/-- `isAssonance` from rhyme-utils.ts (the empty list is the table default). -/
def isAssonance (s1 s2 : List Char) : Bool :=
  let g1 := (tlookup s1 assonanceTable).getD []
  let g2 := (tlookup s2 assonanceTable).getD []
  memb s2 g1 || memb s1 g2

/-- `getEndingConsonants` from `isConsonance`: the maximal trailing run of
`[bcdfghjklmnpqrstvwxyz]` characters. -/
def endingConsonants (s : List Char) : List Char :=
  (s.reverse.takeWhile isConsY).reverse

/-- `isConsonance` from rhyme-utils.ts. -/
def isConsonance (s1 s2 : List Char) : Bool :=
  let c1 := endingConsonants s1
  let c2 := endingConsonants s2
  decide (0 < c1.length) && c1 = c2

/-- The record returned by `analyzeRhyme`. -/
structure RhymeResult : Type where
  rhymes : Bool
  rtype : Rel
deriving DecidableEq

/-- `analyzeRhyme` on two already-extracted rhyme syllables. -/
def analyzeRhymeSyl (s1 s2 : List Char) : RhymeResult :=
  if s1 = [] ∨ s2 = [] then ⟨false, Rel.none⟩
  else if isPerfectRhyme s1 s2 then ⟨true, Rel.rhyme⟩
  else if isAssonance s1 s2 then ⟨true, Rel.assonance⟩
  else if isConsonance s1 s2 then ⟨true, Rel.consonance⟩
  else ⟨false, Rel.none⟩

/-- `analyzeRhyme` from rhyme-utils.ts on two words. -/
def analyzeRhymeW (word1 word2 : List Char) : RhymeResult :=
  analyzeRhymeSyl (extractCore word1) (extractCore word2)

/-- String-level wrapper for `analyzeRhyme`. -/
def analyzeRhyme (word1 word2 : String) : RhymeResult :=
  analyzeRhymeW word1.data word2.data

/-- `getLastWord` from rhyme-utils.ts:
`line.trim().split(/\s+/)` and then the last token (or `''`). -/
def getLastWordL (line : List Char) : List Char :=
  ((jsWords line).getLast?).getD []

/-- String-level wrapper for `getLastWord`. -/
def getLastWord (line : String) : String :=
  String.mk (getLastWordL line.data)

/-! ## rhyme-utils.ts : countSyllables -/

/-- Membership in the accented-vowel list. -/
def isAccent (c : Char) : Bool :=
  accentChars.any (fun a => a = c)

/-- A character that survives the `countSyllables` cleaning as (part of) a
word token: `\w`, the apostrophe, or an accented vowel. -/
def substantive (c : Char) : Bool :=
  isWordCharJS c || c = apos || isAccent c

/-- The character class kept by `countSyllables`:
`[^\w\s'àèìòùáéíóú]` is replaced by a space, everything else kept. -/
def keepInClean (c : Char) : Bool :=
  substantive c || isWsJS c

/-- The `specialCases` word→count table of `countWordSyllables`. -/
def syllSpecialTable : List (List Char × Nat) :=
  [("the".data, 1), ("a".data, 1), ("an".data, 1), ("and".data, 1),
   ("or".data, 1), ("but".data, 1), ("in".data, 1), ("on".data, 1),
   ("at".data, 1), ("to".data, 1), ("for".data, 1), ("of".data, 1),
   ("with".data, 1), ("by".data, 1), ("from".data, 1), ("up".data, 1),
   ("about".data, 2), ("into".data, 2), ("over".data, 2), ("after".data, 2),
   ("through".data, 1), ("during".data, 2), ("before".data, 2),
   ("under".data, 2), ("between".data, 2), ("among".data, 2),
   ("il".data, 1), ("la".data, 1), ("le".data, 1), ("lo".data, 1),
   ("gli".data, 1), ("i".data, 1), ("un".data, 1), ("una".data, 1),
   ("del".data, 1), ("della".data, 2), ("delle".data, 2), ("nel".data, 1),
   ("nella".data, 2), ("nelle".data, 2), ("con".data, 1), ("per".data, 1),
   ("che".data, 1), ("non".data, 1), ("più".data, 1), ("sono".data, 2),
   ("quando".data, 2), ("come".data, 2), ("dove".data, 2),
   ("perché".data, 2), ("anche".data, 2), ("zion".data, 2),
   ("scritte".data, 2)]

/-- The vowel alphabet of `countWordSyllables`
(`'aeiouàèìòùáéíóú'`, accented vowels included). -/
def isVowelIt (c : Char) : Bool :=
  isAeiou c || isAccent c

/-- The Italian vowel-adjacency pairs that count as two syllables in the
vowel-group loop of `countWordSyllables`. -/
def sepVowelPair (p c : Char) : Bool :=
  (p = 'i' && (c = 'a' || c = 'e' || c = 'o')) ||
  (p = 'u' && (c = 'a' || c = 'e' || c = 'i')) ||
  (p = 'a' && c = 'i') || (p = 'e' && c = 'i') || (p = 'o' && c = 'i')

/-- The character-by-character vowel-group loop of `countWordSyllables`,
carrying the previous character (`previousWasVowel` plus `prevChar`). -/
def vowelGroupCount : List Char → Option Char → Nat
  | [], _ => 0
  | c :: rest, prev =>
    let isV := isVowelIt c
    let prevWasV := match prev with
      | some p => isVowelIt p
      | Option.none => false
    let add :=
      if isV && !prevWasV then 1
      else if isV && prevWasV then
        match prev with
        | some p => if sepVowelPair p c then 1 else 0
        | Option.none => 0
      else 0
    add + vowelGroupCount rest (some c)

/-- The fixed allow-list of English words for the silent-e reduction
(`englishPatterns = /^(...)$/`; duplicates in the source are harmless). -/
def silentEWords : List (List Char) :=
  (["the", "are", "here", "there", "where", "more", "before", "while",
    "once", "some", "come", "home", "make", "take", "give", "have",
    "love", "move", "dance", "change", "large", "white", "little", "simple",
    "whole", "style", "smile", "write", "quite", "close", "chose", "hope",
    "note", "vote", "place", "face", "space", "race", "nice", "price",
    "twice", "size", "wise", "rise", "prize", "lose", "use", "house",
    "mouse", "course", "nurse", "horse", "force", "source", "since", "prince",
    "fence", "dance", "chance", "france", "sense", "dense", "tense", "intense",
    "these", "complete", "compete", "delete", "concrete", "discrete", "extreme", "supreme",
    "scene", "theme", "scheme", "gene", "serene", "obscene", "machine", "marine",
    "routine", "antine", "antine", "genuine", "combine", "define", "refine", "decline",
    "outline", "online", "baseline", "headline", "sideline", "timeline", "pipeline", "gasoline",
    "valentine", "discipline", "medicine", "examine", "determine", "imagine", "engine", "magazine",
    "cuisine", "vaccine", "caffeine", "nicotine", "routine", "doctrine", "fortune", "torture",
    "future", "nature", "mature", "picture", "culture", "capture", "measure", "pleasure",
    "treasure", "pressure", "exposure", "closure", "leisure", "seizure", "failure", "secure",
    "pure", "sure", "cure", "lure", "endure", "obscure", "procedure", "literature",
    "temperature", "signature", "adventure", "departure", "furniture", "agriculture", "manufacture", "architecture",
    "legislature", "expenditure", "miniature", "caricature"] : List String).map String.data

/-- `countWordSyllables` from rhyme-utils.ts. -/
def countWordSyllables (word : List Char) : Nat :=
  if word = [] then 0
  else
    let cleanWord := (word.map toLowerJS).filter (fun c => 'a' ≤ c ∧ c ≤ 'z')
    if cleanWord = [] then 0
    else
      match tlookup cleanWord syllSpecialTable with
      | some n => n
      | Option.none =>
        let base := vowelGroupCount cleanWord Option.none
        let silentE : Bool :=
          endsWithSeq ['e'] cleanWord && decide (1 < base) &&
          (match cleanWord[cleanWord.length - 2]? with
           | some b => !isVowelIt b
           | Option.none => false) &&
          memb cleanWord silentEWords
        let c1 := if silentE then base - 1 else base
        let edCut : Bool :=
          endsWithSeq ['e', 'd'] cleanWord && decide (1 < c1) &&
          (match cleanWord[cleanWord.length - 3]? with
           | some b => !(b = 't') && !(b = 'd')
           | Option.none => true)
        let c2 := if edCut then c1 - 1 else c1
        let c3 :=
          if hasSubSeq ['q', 'u'] cleanWord || hasSubSeq ['g', 'u'] cleanWord
          then max 1 c2 else c2
        max 1 c3

/-- The word cleaning inside `countSinalefe`:
`.toLowerCase().replace(/[^\w'àèìòùáéíóú]/g, '')`. -/
def sinClean (w : List Char) : List Char :=
  (w.map toLowerJS).filter substantive

/-- `/^(l|d|c|n|s|qu|bell)['']/` — a leading article or preposition
contraction (only the ASCII apostrophe can survive the cleaning). -/
def startsArticle (w : List Char) : Bool :=
  (["l", "d", "c", "n", "s", "qu", "bell"] : List String).any
    (fun p => startsWithSeq (p.data ++ [apos]) w)

/-- `/(che|come|dove|non|con|per)$/` — ends with a common function word. -/
def endsFuncWord (w : List Char) : Bool :=
  (["che", "come", "dove", "non", "con", "per"] : List String).any
    (fun s => endsWithSeq s.data w)

/-- One adjacent pair of the `countSinalefe` scan. -/
def sinalefePair (cur next : List Char) : Bool :=
  let c := sinClean cur
  let n := sinClean next
  if c ≠ [] ∧ n ≠ [] then
    match c.getLast?, n.head? with
    | some lastC, some firstC =>
      isVowelJS lastC && isVowelJS firstC &&
      (lastC = 'i' || lastC = 'u' || firstC = 'i' || firstC = 'u' ||
       lastC = firstC ||
       startsArticle c || endsFuncWord c ||
       (lastC = 'o' && firstC = 'a') ||
       (lastC = 'a' && (firstC = 'i' || firstC = 'e')) ||
       (lastC = 'e' && (firstC = 'a' || firstC = 'i')))
    | _, _ => false
  else false

/-- `countSinalefe` from rhyme-utils.ts: one elision per qualifying
adjacent word pair. -/
def countSinalefe : List (List Char) → Nat
  | [] => 0
  | [_] => 0
  | a :: b :: rest => (if sinalefePair a b then 1 else 0) + countSinalefe (b :: rest)

/-- `countSyllables` from rhyme-utils.ts. The `trim` + `split(/\s+/)` +
length filter is `jsWords`; the subtraction is done in `Int` and clamped
by `Math.max(1, ·)` exactly as in the source. -/
def countSyllablesL (text : List Char) : Nat :=
  if text = [] then 0
  else
    let cleanText := (text.map toLowerJS).map (fun c => if keepInClean c then c else ' ')
    let words := jsWords cleanText
    if words = [] then 0
    else
      let total : Int := words.foldl (fun acc w => acc + (countWordSyllables w : Int)) 0
      (max 1 (total - (countSinalefe words : Int))).toNat

/-- String-level wrapper for `countSyllables`. -/
def countSyllables (text : String) : Nat :=
  countSyllablesL text.data

/-! ## lyrics-parser.ts

The `LyricsParser` class methods become top-level functions. The verse
records that the TypeScript mutates in place are rebuilt functionally:
`determineRhymePattern` returns both the updated verses and the pattern.
The JS object `rhymeGroups`, keyed by the group's one-letter label, is
modeled positionally: group ids are `0, 1, 2, …` in discovery order and
the label of group `g` is `String.fromCharCode(65 + g)`; since labels are
assigned injectively in discovery order the two views coincide. -/

/-- The `Verse` record of types.ts. -/
structure Verse : Type where
  index : Nat
  text : String
  rhyme_index : String
  rhyming_syllable : String
  rhyme_type : String
  syllable_count : Nat
deriving DecidableEq

instance : Inhabited Verse := ⟨⟨0, "", "", "", "", 0⟩⟩

/-- The `Stanza` record of types.ts. -/
structure Stanza : Type where
  index : Nat
  verses : List Verse
  rhyme_pattern : String
deriving DecidableEq

instance : Inhabited Stanza := ⟨⟨0, [], ""⟩⟩

/-- The `ParsedLyrics` record of types.ts. -/
structure ParsedLyrics : Type where
  stanzas : List Stanza
deriving DecidableEq

/-- Default group record (member verse indices × running relation). -/
def dGroup : List Nat × Rel := ([], Rel.none)

/-- The inner scan of `determineRhymePattern`: walk the previously
processed verses (word, group id) from first to most recent and return
the group id and relation of the first one whose last word `analyzeRhyme`
reports as rhyming with `w`. -/
def findMatch (prev : List (List Char × Nat)) (w : List Char) : Option (Nat × Rel) :=
  match prev with
  | [] => Option.none
  | (pw, g) :: rest =>
    let ra := analyzeRhymeW pw w
    if ra.rhymes then some (g, ra.rtype) else findMatch rest w

/-- The aggregate-relation update of `determineRhymePattern` (lines
611–619): `rhyme` always wins; `assonance` overwrites anything but
`rhyme`; `consonance` only overwrites `none`. -/
def updType (cur t : Rel) : Rel :=
  if t = Rel.rhyme then Rel.rhyme
  else if t = Rel.assonance && !(cur = Rel.rhyme) then Rel.assonance
  else if t = Rel.consonance && cur = Rel.none then Rel.consonance
  else cur

/-- The main grouping loop of `determineRhymePattern` over the verses'
last words. `prev` holds the already-processed (last word, group id)
pairs in verse order, `gs` the groups (member indices × running
relation) in discovery order, and `n` the index of the next verse.
Returns the per-verse group ids and the final groups. -/
def runGrouping : List (List Char) → List (List Char × Nat) →
    List (List Nat × Rel) → Nat → List Nat × List (List Nat × Rel)
  | [], _, gs, _ => ([], gs)
  | w :: ts, prev, gs, n =>
    match findMatch prev w with
    | some (g, ty) =>
      let gr := gs.getD g dGroup
      let gs' := gs.set g (gr.1 ++ [n], updType gr.2 ty)
      let r := runGrouping ts (prev ++ [(w, g)]) gs' (n + 1)
      (g :: r.1, r.2)
    | Option.none =>
      let g := gs.length
      let gs' := gs ++ [([n], Rel.none)]
      let r := runGrouping ts (prev ++ [(w, g)]) gs' (n + 1)
      (g :: r.1, r.2)

/-- `String.fromCharCode(65 + g)`: the label of group `g`. -/
def labelChar (g : Nat) : Char :=
  Char.ofNat (65 + g)

/-- The last words of a stanza's verses, in order. -/
def stanzaWords (vs : List Verse) : List (List Char) :=
  vs.map (fun v => getLastWordL v.text.data)

/-- The per-verse group ids computed by the grouping loop. -/
def stanzaAssignments (vs : List Verse) : List Nat :=
  (runGrouping (stanzaWords vs) [] [] 0).1

/-- The groups computed by the grouping loop. -/
def stanzaGroups (vs : List Verse) : List (List Nat × Rel) :=
  (runGrouping (stanzaWords vs) [] [] 0).2

/-- The finalization of `determineRhymePattern`: a singleton group
reports `''`; otherwise `none` is promoted to `'rhyme'` and the group's
relation string is reported. -/
def finalTypeStr (gr : List Nat × Rel) : String :=
  if gr.1.length = 1 then ""
  else relStr (if gr.2 = Rel.none then Rel.rhyme else gr.2)

/-- `determineRhymePattern` from lyrics-parser.ts: returns the verses
with `rhyme_index` / `rhyme_type` filled in, and the pattern string. -/
def determineRhymePattern (vs : List Verse) : List Verse × String :=
  let a := stanzaAssignments vs
  let gs := stanzaGroups vs
  let out := (vs.zip a).map (fun p =>
    { p.1 with
      rhyme_index := String.mk [labelChar p.2],
      rhyme_type := finalTypeStr (gs.getD p.2 dGroup) })
  (out, String.mk (a.map labelChar))

/-- `parseStanzaIntoVerses` from lyrics-parser.ts (the `stanzaIndex`
argument is unused in the source as well). -/
def parseStanzaIntoVerses (stanzaText : List Char) (_stanzaIndex : Nat) : List Verse :=
  let lines := ((splitOnP2 (fun c => c = '\n') stanzaText).map trimChars).filter
    (fun l => l ≠ [])
  (List.range lines.length).map (fun i =>
    let line := lines.getD i []
    let lastWord := getLastWordL line
    { index := i + 1
      text := String.mk line
      rhyme_index := ""
      rhyming_syllable := String.mk (extractCore lastWord)
      rhyme_type := ""
      syllable_count := countSyllablesL line })

/-- `splitIntoStanzas` from lyrics-parser.ts. Splitting on the regex
`/\n\s*\n/` is modeled by cutting the `'\n'`-separated line list at
whitespace-only lines and re-joining each block with `'\n'`; after the
source's `trim` + non-empty filter the two views agree. -/
def splitIntoStanzas (lyrics : List Char) : List (List Char) :=
  let lines := splitOnP2 (fun c => c = '\n') lyrics
  let blocks := splitOnP2 (fun l => l.all isWsJS) lines
  ((blocks.map (fun b => (b.intersperse ['\n']).flatten)).map trimChars).filter
    (fun s => s ≠ [])

/-- One stanza record of `parseLyrics` (`stanzaIndex` is 0-based here,
the stored index is 1-based as in the source). -/
def mkStanza (stanzaText : List Char) (stanzaIndex : Nat) : Stanza :=
  let vs := parseStanzaIntoVerses stanzaText stanzaIndex
  let r := determineRhymePattern vs
  { index := stanzaIndex + 1, verses := r.1, rhyme_pattern := r.2 }

/-- The `forEach` over stanzas of `parseLyrics`. -/
def buildStanzas : List (List Char) → Nat → List Stanza
  | [], _ => []
  | st :: rest, i => mkStanza st i :: buildStanzas rest (i + 1)

/-- `parseLyrics` from lyrics-parser.ts. -/
def parseLyrics (lyrics : String) : ParsedLyrics :=
  ⟨buildStanzas (splitIntoStanzas lyrics.data) 0⟩

/-! ## Symmetry of the classifiers (claim C7) -/

theorem memb_iff (x : List Char) (l : List (List Char)) : memb x l = true ↔ x ∈ l := by
  simp [memb]

theorem anyMemb_comm (l1 l2 : List (List Char)) :
    l1.any (fun g => memb g l2) = l2.any (fun g => memb g l1) := by
  rw [Bool.eq_iff_iff]
  simp only [List.any_eq_true, memb_iff]
  constructor
  · rintro ⟨x, hx1, hx2⟩; exact ⟨x, hx2, hx1⟩
  · rintro ⟨x, hx1, hx2⟩; exact ⟨x, hx2, hx1⟩

theorem isPerfectRhyme_symm (a b : List Char) :
    isPerfectRhyme a b = isPerfectRhyme b a := by
  unfold isPerfectRhyme
  by_cases h : a = b
  · subst h; rfl
  · rw [if_neg h, if_neg (Ne.symm h)]
    exact anyMemb_comm _ _

theorem isAssonance_symm (a b : List Char) :
    isAssonance a b = isAssonance b a := by
  unfold isAssonance
  exact Bool.or_comm _ _

theorem isConsonance_symm (a b : List Char) :
    isConsonance a b = isConsonance b a := by
  simp only [isConsonance]
  by_cases h : endingConsonants a = endingConsonants b
  · rw [h]
  · simp [h, Ne.symm h]

theorem tlookup_mem {β : Type} {k : List Char} {v : β} :
    ∀ {t : List (List Char × β)}, tlookup k t = some v → (k, v) ∈ t := by
  intro t
  induction t with
  | nil => intro h; exact absurd h (by simp [tlookup])
  | cons p rest ih =>
    cases p with
    | mk a b =>
      intro h
      rw [tlookup] at h
      split at h
      · rename_i heq
        cases h
        simp_all
      · exact List.mem_cons_of_mem _ (ih h)

theorem vsym_mem (v1 v2 : List Char)
    (h : memb v2 ((tlookup v1 vowelSimTable).getD [v1]) = true) :
    memb v1 ((tlookup v2 vowelSimTable).getD [v2]) = true := by
  match hl : tlookup v1 vowelSimTable with
  | Option.none =>
    rw [hl] at h
    rw [memb_iff] at h
    simp at h
    subst h
    rw [hl]
    rw [memb_iff]
    simp
  | some L =>
    rw [hl] at h
    have hm := tlookup_mem hl
    rw [memb_iff] at h
    simp only [vowelSimTable, List.mem_cons, List.not_mem_nil, or_false,
      Prod.mk.injEq] at hm
    rcases hm with ⟨h1, h2⟩ | ⟨h1, h2⟩ | ⟨h1, h2⟩ | ⟨h1, h2⟩ | ⟨h1, h2⟩ |
      ⟨h1, h2⟩ | ⟨h1, h2⟩ | ⟨h1, h2⟩ | ⟨h1, h2⟩ | ⟨h1, h2⟩ <;>
      subst h1 <;> subst h2 <;> simp only [Option.getD_some] at h <;>
      fin_cases h <;> decide

theorem checkAssonance_symm (a b : List Char) :
    checkAssonance a b = checkAssonance b a := by
  simp only [checkAssonance]
  by_cases h1 : vowelPattern a = []
  · simp [h1]
  · by_cases h2 : vowelPattern b = []
    · simp [h2]
    · have hA : vowelPattern a ≠ [] ∧ vowelPattern b ≠ [] := ⟨h1, h2⟩
      have hB : vowelPattern b ≠ [] ∧ vowelPattern a ≠ [] := ⟨h2, h1⟩
      rw [if_pos hA, if_pos hB]
      by_cases he : vowelPattern a = vowelPattern b
      · rw [if_pos he, if_pos he.symm]
      · rw [if_neg he, if_neg (Ne.symm he)]
        rw [Bool.eq_iff_iff]
        exact ⟨vsym_mem _ _, vsym_mem _ _⟩

theorem wordsRhymeW_symm (a b : List Char) :
    wordsRhymeW a b = wordsRhymeW b a := by
  simp only [wordsRhymeW]
  by_cases h0 : extractCore a = [] ∨ extractCore b = []
  · rw [if_pos h0, if_pos (Or.symm h0)]
  · rw [if_neg h0, if_neg (fun hc => h0 (Or.symm hc))]
    by_cases he : extractCore a = extractCore b
    · rw [if_pos he, if_pos he.symm]
    · rw [if_neg he, if_neg (Ne.symm he)]
      rw [anyMemb_comm]
      by_cases hg : (((tlookup (extractCore b) broadTable).getD [extractCore b]).any
          (fun g => memb g ((tlookup (extractCore a) broadTable).getD [extractCore a]))) = true
      · rw [if_pos hg, if_pos hg]
      · rw [if_neg hg, if_neg hg]
        exact checkAssonance_symm _ _

theorem analyzeRhymeSyl_symm (a b : List Char) :
    analyzeRhymeSyl a b = analyzeRhymeSyl b a := by
  simp only [analyzeRhymeSyl]
  by_cases h0 : a = [] ∨ b = []
  · rw [if_pos h0, if_pos (Or.symm h0)]
  · rw [if_neg h0, if_neg (fun hc => h0 (Or.symm hc))]
    rw [isPerfectRhyme_symm, isAssonance_symm, isConsonance_symm]

/-! ## Length bound for rhyme-key extraction (claim C8) -/

theorem startsWithSeq_length {a b : List Char} (h : startsWithSeq a b = true) :
    a.length ≤ b.length := by
  induction a generalizing b with
  | nil => simp
  | cons x xs ih =>
    cases b with
    | nil => exact absurd h (by simp [startsWithSeq])
    | cons y ys =>
      rw [startsWithSeq, Bool.and_eq_true] at h
      simpa using ih h.2

theorem endsWithSeq_length {a b : List Char} (h : endsWithSeq a b = true) :
    a.length ≤ b.length := by
  have := startsWithSeq_length h
  simpa using this

theorem cleanRhymeWord_length (w : List Char) :
    (cleanRhymeWord w).length ≤ w.length := by
  calc (cleanRhymeWord w).length ≤ (w.map toLowerJS).length :=
        List.length_filter_le _ _
    _ = w.length := List.length_map _ _

theorem extractCore_length {w : List Char}
    (h : tlookup (cleanRhymeWord w) specialTable = Option.none) :
    (extractCore w).length ≤ w.length := by
  by_cases hw : w = []
  · simp [extractCore, hw]
  · rw [extractCore, if_neg hw]
    simp only [h]
    have hcl := cleanRhymeWord_length w
    match hf : (patternsList.find? (fun p => endsWithSeq p (cleanRhymeWord w))) with
    | some p =>
      show p.length ≤ w.length
      have hp := List.find?_some hf
      simp only at hp
      exact le_trans (endsWithSeq_length hp) hcl
    | Option.none =>
      dsimp only
      split
      · split
        · exact le_trans (by rw [List.length_drop]; omega) hcl
        · split
          · exact le_trans (by rw [List.length_drop]; omega) hcl
          · exact le_trans (by rw [List.length_drop]; omega) hcl
      · exact hcl

/-! ## Zero / positive characterization of countSyllables (claim C5) -/

theorem jsWords_nil_iff (l : List Char) : (jsWords l = []) ↔ (l.all isWsJS = true) := by
  induction l with
  | nil => simp [jsWords, splitOnP2]
  | cons c cs ih =>
    rw [jsWords, splitOnP2]
    by_cases hc : isWsJS c
    · rw [if_pos hc]
      rw [List.filter_cons]
      rw [if_neg (by simp)]
      rw [List.all_cons, hc, Bool.true_and]
      rw [jsWords] at ih
      exact ih
    · rw [if_neg hc]
      rw [List.filter_cons]
      rw [if_pos (by simp)]
      simp [List.all_cons, hc]

theorem ws_not_subst {c : Char} (h : isWsJS c = true) : substantive c = false := by
  simp only [isWsJS, Bool.or_eq_true, decide_eq_true_eq] at h
  rcases h with ((((h | h) | h) | h) | h) | h <;> subst h <;> decide

theorem isWs_if_keep (c : Char) :
    isWsJS (if keepInClean c then c else ' ') = !substantive c := by
  by_cases hs : substantive c = true
  · have hw : isWsJS c = false := by
      cases hiw : isWsJS c
      · rfl
      · rw [ws_not_subst hiw] at hs; cases hs
    have hk : keepInClean c = true := by rw [keepInClean, hs]; rfl
    rw [if_pos hk, hw, hs]
    rfl
  · have hs' : substantive c = false := by
      cases hsb : substantive c
      · rfl
      · exact absurd hsb hs
    rw [hs']
    by_cases hk : keepInClean c = true
    · rw [if_pos hk]
      rw [keepInClean, hs', Bool.false_or] at hk
      rw [hk]
      rfl
    · rw [if_neg hk]
      decide

theorem cleanText_allWs_iff (t : List Char) :
    (((t.map toLowerJS).map (fun c => if keepInClean c then c else ' ')).all isWsJS = true)
    ↔ (∀ c ∈ t, substantive (toLowerJS c) = false) := by
  simp only [List.all_map, List.all_eq_true, Function.comp_apply, isWs_if_keep,
    Bool.not_eq_true']

theorem countSyllablesL_eq_zero_iff (t : List Char) :
    countSyllablesL t = 0 ↔ ∀ c ∈ t, substantive (toLowerJS c) = false := by
  rw [countSyllablesL]
  by_cases ht : t = []
  · subst ht; simp
  · rw [if_neg ht]
    dsimp only
    by_cases hw : jsWords ((t.map toLowerJS).map (fun c => if keepInClean c then c else ' ')) = []
    · rw [if_pos hw]
      rw [jsWords_nil_iff] at hw
      rw [cleanText_allWs_iff] at hw
      exact iff_of_true rfl hw
    · rw [if_neg hw]
      have h1 : (1 : Int) ≤ max 1 (((jsWords ((t.map toLowerJS).map (fun c => if keepInClean c then c else ' '))).foldl (fun acc w => acc + (countWordSyllables w : Int)) 0) - ((countSinalefe (jsWords ((t.map toLowerJS).map (fun c => if keepInClean c then c else ' ')))) : Int)) := le_max_left _ _
      constructor
      · intro h0
        exfalso
        omega
      · intro hall
        exfalso
        apply hw
        rw [jsWords_nil_iff, cleanText_allWs_iff]
        exact hall

theorem countSyllables_pos_of_substantive {t : String}
    (h : ∃ c ∈ t.data, substantive (toLowerJS c) = true) : 1 ≤ countSyllables t := by
  rcases h with ⟨c, hc, hsub⟩
  by_contra hlt
  have h0 : countSyllables t = 0 := by omega
  rw [countSyllables, countSyllablesL_eq_zero_iff] at h0
  rw [h0 c hc] at hsub
  cases hsub

/-! ## Helper lemmas for the grouping loop -/

/-- Default entry for the processed-verse list. -/
def dPrev : List Char × Nat := ([], 0)

theorem getD_set_self {α : Type} (l : List α) (i : Nat) (a d : α) (h : i < l.length) :
    (l.set i a).getD i d = a := by
  induction l generalizing i with
  | nil => simp at h
  | cons x xs ih =>
    cases i with
    | zero => rfl
    | succ i' => exact ih i' (by simpa using h)

theorem getD_set_ne {α : Type} (l : List α) (i j : Nat) (a d : α) (h : i ≠ j) :
    (l.set i a).getD j d = l.getD j d := by
  induction l generalizing i j with
  | nil => simp
  | cons x xs ih =>
    cases i with
    | zero =>
      cases j with
      | zero => exact absurd rfl h
      | succ j' => rfl
    | succ i' =>
      cases j with
      | zero => rfl
      | succ j' => exact ih i' j' (fun hc => h (by rw [hc]))

theorem getD_take {α : Type} (l : List α) (i j : Nat) (d : α) (h : i < j) :
    (l.take j).getD i d = l.getD i d := by
  rw [List.getD_eq_getD_get?, List.getD_eq_getD_get?, List.get?_take h]

theorem zip_getD {α β : Type} (l1 : List α) (l2 : List β) (k : Nat) (d1 : α) (d2 : β)
    (h1 : k < l1.length) (h2 : k < l2.length) :
    (l1.zip l2).getD k (d1, d2) = (l1.getD k d1, l2.getD k d2) := by
  induction l1 generalizing l2 k with
  | nil => simp at h1
  | cons x xs ih =>
    cases l2 with
    | nil => simp at h2
    | cons y ys =>
      cases k with
      | zero => rfl
      | succ k' => exact ih ys k' (by simpa using h1) (by simpa using h2)

theorem map_getD {α β : Type} (l : List α) (f : α → β) (k : Nat) (d : β) (d0 : α)
    (h : k < l.length) :
    (l.map f).getD k d = f (l.getD k d0) := by
  induction l generalizing k with
  | nil => simp at h
  | cons x xs ih =>
    cases k with
    | zero => rfl
    | succ k' => exact ih k' (by simpa using h)

theorem countP_zip_snd {α β : Type} (l1 : List α) (l2 : List β) (q : β → Bool)
    (h : l1.length = l2.length) :
    (l1.zip l2).countP (fun pr => q pr.2) = l2.countP q := by
  induction l1 generalizing l2 with
  | nil =>
    cases l2 with
    | nil => rfl
    | cons y ys => simp at h
  | cons x xs ih =>
    cases l2 with
    | nil => simp at h
    | cons y ys =>
      rw [List.zip_cons_cons, List.countP_cons, List.countP_cons]
      rw [ih ys (by simpa using h)]

theorem getD_mem {α : Type} (l : List α) (n : Nat) (d : α) (h : n < l.length) :
    l.getD n d ∈ l := by
  rw [List.getD_eq_getElem l d h]
  exact l.getElem_mem h

/-! ## findMatch lemmas -/

theorem analyzeRhymeW_congr {a b : List Char} (h : extractCore a = extractCore b)
    (p : List Char) : analyzeRhymeW p a = analyzeRhymeW p b := by
  rw [analyzeRhymeW, analyzeRhymeW, h]

theorem analyzeRhymeSyl_self {s : List Char} (h : s ≠ []) :
    (analyzeRhymeSyl s s).rhymes = true := by
  have hp : isPerfectRhyme s s = true := by rw [isPerfectRhyme]; simp
  simp [analyzeRhymeSyl, h, hp]

theorem analyzeRhymeSyl_rtype_ne_none {s1 s2 : List Char}
    (h : (analyzeRhymeSyl s1 s2).rhymes = true) :
    (analyzeRhymeSyl s1 s2).rtype ≠ Rel.none := by
  rw [analyzeRhymeSyl] at h ⊢
  by_cases h0 : s1 = [] ∨ s2 = []
  · rw [if_pos h0] at h; cases h
  · rw [if_neg h0] at h ⊢
    by_cases hp : isPerfectRhyme s1 s2 = true
    · rw [if_pos hp]; simp
    · rw [if_neg hp] at h ⊢
      by_cases ha : isAssonance s1 s2 = true
      · rw [if_pos ha]; simp
      · rw [if_neg ha] at h ⊢
        by_cases hc : isConsonance s1 s2 = true
        · rw [if_pos hc]; simp
        · rw [if_neg hc] at h; exact absurd h (by simp)

theorem findMatch_congr {a b : List Char} (h : extractCore a = extractCore b) :
    ∀ (l : List (List Char × Nat)), findMatch l a = findMatch l b := by
  intro l
  induction l with
  | nil => rfl
  | cons p rest ih =>
    cases p with
    | mk pw g =>
      rw [findMatch, findMatch]
      rw [analyzeRhymeW_congr h pw]
      split
      · rfl
      · exact ih

theorem findMatch_append (l1 l2 : List (List Char × Nat)) (w : List Char) :
    findMatch (l1 ++ l2) w =
      (match findMatch l1 w with
       | some r => some r
       | Option.none => findMatch l2 w) := by
  induction l1 with
  | nil => rfl
  | cons p rest ih =>
    cases p with
    | mk pw g =>
      rw [List.cons_append, findMatch, findMatch]
      split
      · rfl
      · exact ih

theorem findMatch_mem {l : List (List Char × Nat)} {w : List Char} {g : Nat} {ty : Rel}
    (h : findMatch l w = some (g, ty)) : ∃ pw, (pw, g) ∈ l := by
  induction l with
  | nil => exact absurd h (by rw [findMatch]; simp)
  | cons p rest ih =>
    cases p with
    | mk pw g' =>
      rw [findMatch] at h
      split at h
      · cases h
        exact ⟨pw, List.mem_cons_self _ _⟩
      · obtain ⟨pw', hm⟩ := ih h
        exact ⟨pw', List.mem_cons_of_mem _ hm⟩

theorem findMatch_rtype_ne_none {l : List (List Char × Nat)} {w : List Char} {g : Nat}
    {ty : Rel} (h : findMatch l w = some (g, ty)) : ty ≠ Rel.none := by
  induction l with
  | nil => exact absurd h (by rw [findMatch]; simp)
  | cons p rest ih =>
    cases p with
    | mk pw g' =>
      rw [findMatch] at h
      split at h
      · rename_i hr
        cases h
        exact analyzeRhymeSyl_rtype_ne_none hr
      · exact ih h

theorem findMatch_none_iff (l : List (List Char × Nat)) (w : List Char) :
    findMatch l w = Option.none ↔ ∀ p ∈ l, (analyzeRhymeW p.1 w).rhymes = false := by
  induction l with
  | nil => simp [findMatch]
  | cons p rest ih =>
    cases p with
    | mk pw g =>
      rw [findMatch]
      constructor
      · intro h
        split at h
        · cases h
        · rename_i hr
          intro q hq
          rcases List.mem_cons.mp hq with hq | hq
          · subst hq
            revert hr
            cases (analyzeRhymeW pw w).rhymes <;> simp
          · exact (ih.mp h) q hq
      · intro hall
        have h0 := hall (pw, g) (List.mem_cons_self _ _)
        rw [h0]
        simp only [Bool.false_eq_true, if_false]
        exact ih.mpr (fun q hq => hall q (List.mem_cons_of_mem _ hq))

theorem findMatch_first {l : List (List Char × Nat)} {w : List Char} {i : Nat}
    (hi : i < l.length)
    (hr : (analyzeRhymeW (l.getD i dPrev).1 w).rhymes = true)
    (hk : ∀ k, k < i → (analyzeRhymeW (l.getD k dPrev).1 w).rhymes = false) :
    findMatch l w = some ((l.getD i dPrev).2, (analyzeRhymeW (l.getD i dPrev).1 w).rtype) := by
  induction l generalizing i with
  | nil => simp at hi
  | cons p rest ih =>
    cases p with
    | mk pw g =>
      cases i with
      | zero =>
        rw [findMatch]
        simp only [List.getD_cons_zero] at hr ⊢
        rw [if_pos hr]
      | succ i' =>
        have h0 := hk 0 (Nat.succ_pos _)
        rw [findMatch]
        simp only [List.getD_cons_zero] at h0
        rw [h0]
        simp only [Bool.false_eq_true, if_false]
        simp only [List.getD_cons_succ] at hr ⊢
        exact ih (by simpa using hi) hr (fun k hki => by
          have := hk (k + 1) (by omega)
          simpa using this)

/-! ## The grouping-loop invariant -/

/-- Every processed verse's stored group id agrees with the first-match
scan over the verses before it: if some earlier verse rhymes (typed
test), the id is the first such verse's id; otherwise the id is fresh. -/
def InvJoin (pl : List (List Char × Nat)) : Prop :=
  ∀ j, j < pl.length →
    match findMatch (pl.take j) (pl.getD j dPrev).1 with
    | some (g, _) => (pl.getD j dPrev).2 = g
    | Option.none => ∀ k, k < j → (pl.getD j dPrev).2 ≠ (pl.getD k dPrev).2

theorem take_append_le {α : Type} (l1 l2 : List α) (n : Nat) (h : n ≤ l1.length) :
    (l1 ++ l2).take n = l1.take n := by
  rw [List.take_append_eq_append_take, Nat.sub_eq_zero_of_le h]
  simp

theorem updType_ne_none (cur t : Rel) (h : t ≠ Rel.none) : updType cur t ≠ Rel.none := by
  cases t <;> cases cur <;> simp_all [updType]

theorem runGrouping_spec (ts : List (List Char)) :
    ∀ (prev : List (List Char × Nat)) (gs : List (List Nat × Rel)),
    (∀ p ∈ prev, p.2 < gs.length) →
    InvJoin prev →
    (∀ g, g < gs.length →
      (gs.getD g dGroup).1.length = (prev.map Prod.snd).countP (fun x => x = g)) →
    (∀ g, g < gs.length → 2 ≤ (gs.getD g dGroup).1.length → (gs.getD g dGroup).2 ≠ Rel.none) →
    (runGrouping ts prev gs prev.length).1.length = ts.length ∧
    (∀ p ∈ prev ++ ts.zip (runGrouping ts prev gs prev.length).1,
      p.2 < (runGrouping ts prev gs prev.length).2.length) ∧
    InvJoin (prev ++ ts.zip (runGrouping ts prev gs prev.length).1) ∧
    (∀ g, g < (runGrouping ts prev gs prev.length).2.length →
      (((runGrouping ts prev gs prev.length).2.getD g dGroup).1.length =
        ((prev ++ ts.zip (runGrouping ts prev gs prev.length).1).map Prod.snd).countP
          (fun x => x = g))) ∧
    (∀ g, g < (runGrouping ts prev gs prev.length).2.length →
      2 ≤ ((runGrouping ts prev gs prev.length).2.getD g dGroup).1.length →
      ((runGrouping ts prev gs prev.length).2.getD g dGroup).2 ≠ Rel.none) := by
  induction ts with
  | nil =>
    intro prev gs hb hinv hcount hty
    rw [runGrouping]
    refine ⟨rfl, ?_, ?_, ?_, ?_⟩
    · simpa using hb
    · simpa using hinv
    · simpa using hcount
    · simpa using hty
  | cons w ts' ih =>
    intro prev gs hb hinv hcount hty
    match hm : findMatch prev w with
    | some (g, ty) =>
      have hg : g < gs.length := by
        obtain ⟨pw, hmem⟩ := findMatch_mem hm
        exact hb (pw, g) hmem
      -- the updated state
      have hrun : runGrouping (w :: ts') prev gs prev.length =
          ((g :: (runGrouping ts' (prev ++ [(w, g)])
              (gs.set g ((gs.getD g dGroup).1 ++ [prev.length],
                updType (gs.getD g dGroup).2 ty)) (prev.length + 1)).1,
            (runGrouping ts' (prev ++ [(w, g)])
              (gs.set g ((gs.getD g dGroup).1 ++ [prev.length],
                updType (gs.getD g dGroup).2 ty)) (prev.length + 1)).2)) := by
        rw [runGrouping, hm]
      have hlen' : (prev ++ [(w, g)]).length = prev.length + 1 := by simp
      have hglen : (gs.set g ((gs.getD g dGroup).1 ++ [prev.length],
          updType (gs.getD g dGroup).2 ty)).length = gs.length := List.length_set _ _ _
      -- hypotheses for the tail call
      have hb' : ∀ p ∈ prev ++ [(w, g)], p.2 < (gs.set g ((gs.getD g dGroup).1 ++ [prev.length],
          updType (gs.getD g dGroup).2 ty)).length := by
        intro p hp
        rw [hglen]
        rcases List.mem_append.mp hp with hp | hp
        · exact hb p hp
        · rcases List.mem_singleton.mp hp with rfl
          exact hg
      have hinv' : InvJoin (prev ++ [(w, g)]) := by
        intro j hj
        rw [hlen'] at hj
        by_cases hjlt : j < prev.length
        · rw [take_append_le _ _ _ (le_of_lt hjlt), List.getD_append _ _ _ _ hjlt]
          have hj' := hinv j hjlt
          match hfm : findMatch (List.take j prev) ((prev.getD j dPrev).1) with
          | Option.none =>
            simp only [hfm] at hj' ⊢
            intro k hk
            rw [List.getD_append _ _ _ _ (lt_trans hk hjlt)]
            exact hj' k hk
          | some (g0, t0) =>
            simp only [hfm] at hj' ⊢
            exact hj'
        · have hje : j = prev.length := by omega
          subst hje
          rw [take_append_le _ _ _ (le_refl _), List.take_length,
            List.getD_append_right _ _ _ _ (le_refl _), Nat.sub_self]
          simp only [List.getD_cons_zero, hm]
      have hcount' : ∀ g', g' < (gs.set g ((gs.getD g dGroup).1 ++ [prev.length],
          updType (gs.getD g dGroup).2 ty)).length →
          (((gs.set g ((gs.getD g dGroup).1 ++ [prev.length],
            updType (gs.getD g dGroup).2 ty)).getD g' dGroup).1.length =
           ((prev ++ [(w, g)]).map Prod.snd).countP (fun x => x = g')) := by
        intro g' hg'
        rw [hglen] at hg'
        rw [List.map_append, List.countP_append]
        by_cases hgg : g' = g
        · subst hgg
          rw [getD_set_self _ _ _ _ hg]
          simp only [List.map_cons, List.map_nil]
          rw [List.length_append, hcount g' hg']
          simp
        · rw [getD_set_ne _ _ _ _ _ (fun hc => hgg hc.symm)]
          rw [hcount g' hg']
          have hne : ¬(g = g') := fun hc => hgg hc.symm
          simp [hne]
      have hty' : ∀ g', g' < (gs.set g ((gs.getD g dGroup).1 ++ [prev.length],
          updType (gs.getD g dGroup).2 ty)).length →
          2 ≤ ((gs.set g ((gs.getD g dGroup).1 ++ [prev.length],
            updType (gs.getD g dGroup).2 ty)).getD g' dGroup).1.length →
          ((gs.set g ((gs.getD g dGroup).1 ++ [prev.length],
            updType (gs.getD g dGroup).2 ty)).getD g' dGroup).2 ≠ Rel.none := by
        intro g' hg' hlen2
        rw [hglen] at hg'
        by_cases hgg : g' = g
        · subst hgg
          rw [getD_set_self _ _ _ _ hg]
          exact updType_ne_none _ _ (findMatch_rtype_ne_none hm)
        · rw [getD_set_ne _ _ _ _ _ (fun hc => hgg hc.symm)] at hlen2 ⊢
          exact hty g' hg' hlen2
      have IH := ih (prev ++ [(w, g)]) _ hb' hinv' hcount' hty'
      rw [hlen'] at IH
      rw [hrun]
      have hpl : prev ++ (w :: ts').zip (g :: (runGrouping ts' (prev ++ [(w, g)])
            (gs.set g ((gs.getD g dGroup).1 ++ [prev.length],
              updType (gs.getD g dGroup).2 ty)) (prev.length + 1)).1) =
          (prev ++ [(w, g)]) ++ ts'.zip (runGrouping ts' (prev ++ [(w, g)])
            (gs.set g ((gs.getD g dGroup).1 ++ [prev.length],
              updType (gs.getD g dGroup).2 ty)) (prev.length + 1)).1 := by
        rw [List.zip_cons_cons, List.append_cons, List.append_assoc]
      refine ⟨?_, ?_, ?_, ?_, ?_⟩
      · simpa using IH.1
      · rw [hpl]; exact IH.2.1
      · rw [hpl]; exact IH.2.2.1
      · rw [hpl]; exact IH.2.2.2.1
      · exact IH.2.2.2.2
    | Option.none =>
      have hrun : runGrouping (w :: ts') prev gs prev.length =
          ((gs.length :: (runGrouping ts' (prev ++ [(w, gs.length)])
              (gs ++ [([prev.length], Rel.none)]) (prev.length + 1)).1,
            (runGrouping ts' (prev ++ [(w, gs.length)])
              (gs ++ [([prev.length], Rel.none)]) (prev.length + 1)).2)) := by
        rw [runGrouping, hm]
      have hlen' : (prev ++ [(w, gs.length)]).length = prev.length + 1 := by simp
      have hglen : (gs ++ [([prev.length], Rel.none)]).length = gs.length + 1 := by simp
      have hb' : ∀ p ∈ prev ++ [(w, gs.length)],
          p.2 < (gs ++ [([prev.length], Rel.none)]).length := by
        intro p hp
        rw [hglen]
        rcases List.mem_append.mp hp with hp | hp
        · exact Nat.lt_trans (hb p hp) (Nat.lt_succ_self _)
        · rcases List.mem_singleton.mp hp with rfl
          exact Nat.lt_succ_self _
      have hinv' : InvJoin (prev ++ [(w, gs.length)]) := by
        intro j hj
        rw [hlen'] at hj
        by_cases hjlt : j < prev.length
        · rw [take_append_le _ _ _ (le_of_lt hjlt), List.getD_append _ _ _ _ hjlt]
          have hj' := hinv j hjlt
          match hfm : findMatch (List.take j prev) ((prev.getD j dPrev).1) with
          | Option.none =>
            simp only [hfm] at hj' ⊢
            intro k hk
            rw [List.getD_append _ _ _ _ (lt_trans hk hjlt)]
            exact hj' k hk
          | some (g0, t0) =>
            simp only [hfm] at hj' ⊢
            exact hj'
        · have hje : j = prev.length := by omega
          subst hje
          rw [take_append_le _ _ _ (le_refl _), List.take_length,
            List.getD_append_right _ _ _ _ (le_refl _), Nat.sub_self]
          simp only [List.getD_cons_zero, hm]
          intro k hk
          rw [List.getD_append _ _ _ _ hk]
          have hmem := getD_mem prev k dPrev hk
          have := hb _ hmem
          show gs.length ≠ (prev.getD k dPrev).2
          omega
      have hcount' : ∀ g', g' < (gs ++ [([prev.length], Rel.none)]).length →
          (((gs ++ [([prev.length], Rel.none)]).getD g' dGroup).1.length =
           ((prev ++ [(w, gs.length)]).map Prod.snd).countP (fun x => x = g')) := by
        intro g' hg'
        rw [hglen] at hg'
        rw [List.map_append, List.countP_append]
        by_cases hglt : g' < gs.length
        · rw [List.getD_append _ _ _ _ hglt, hcount g' hglt]
          have hne : ¬(gs.length = g') := by omega
          simp [hne]
        · have hge : g' = gs.length := by omega
          subst hge
          rw [List.getD_append_right _ _ _ _ (le_refl _), Nat.sub_self]
          have hz : (prev.map Prod.snd).countP (fun x => x = gs.length) = 0 := by
            rw [List.countP_eq_zero]
            intro a ha
            rcases List.mem_map.mp ha with ⟨p, hp, rfl⟩
            have := hb p hp
            simp only [decide_eq_true_eq]
            omega
          rw [hz]
          simp
      have hty' : ∀ g', g' < (gs ++ [([prev.length], Rel.none)]).length →
          2 ≤ ((gs ++ [([prev.length], Rel.none)]).getD g' dGroup).1.length →
          ((gs ++ [([prev.length], Rel.none)]).getD g' dGroup).2 ≠ Rel.none := by
        intro g' hg' hlen2
        rw [hglen] at hg'
        by_cases hglt : g' < gs.length
        · rw [List.getD_append _ _ _ _ hglt] at hlen2 ⊢
          exact hty g' hglt hlen2
        · have hge : g' = gs.length := by omega
          subst hge
          rw [List.getD_append_right _ _ _ _ (le_refl _), Nat.sub_self] at hlen2
          simp at hlen2
      have IH := ih (prev ++ [(w, gs.length)]) _ hb' hinv' hcount' hty'
      rw [hlen'] at IH
      rw [hrun]
      have hpl : prev ++ (w :: ts').zip (gs.length :: (runGrouping ts' (prev ++ [(w, gs.length)])
            (gs ++ [([prev.length], Rel.none)]) (prev.length + 1)).1) =
          (prev ++ [(w, gs.length)]) ++ ts'.zip (runGrouping ts' (prev ++ [(w, gs.length)])
            (gs ++ [([prev.length], Rel.none)]) (prev.length + 1)).1 := by
        rw [List.zip_cons_cons, List.append_cons, List.append_assoc]
      refine ⟨?_, ?_, ?_, ?_, ?_⟩
      · simpa using IH.1
      · rw [hpl]; exact IH.2.1
      · rw [hpl]; exact IH.2.2.1
      · rw [hpl]; exact IH.2.2.2.1
      · exact IH.2.2.2.2

theorem drop_eq_getD_cons {α : Type} {l : List α} {n : Nat} (d : α) (h : n < l.length) :
    l.drop n = l.getD n d :: l.drop (n + 1) := by
  rw [List.drop_eq_getElem_cons h, List.getD_eq_getElem l d h]

theorem runGrouping_facts (ws : List (List Char)) :
    (runGrouping ws [] [] 0).1.length = ws.length ∧
    (∀ p ∈ ws.zip (runGrouping ws [] [] 0).1, p.2 < (runGrouping ws [] [] 0).2.length) ∧
    InvJoin (ws.zip (runGrouping ws [] [] 0).1) ∧
    (∀ g, g < (runGrouping ws [] [] 0).2.length →
      ((runGrouping ws [] [] 0).2.getD g dGroup).1.length =
        (runGrouping ws [] [] 0).1.countP (fun x => x = g)) ∧
    (∀ g, g < (runGrouping ws [] [] 0).2.length →
      2 ≤ ((runGrouping ws [] [] 0).2.getD g dGroup).1.length →
      ((runGrouping ws [] [] 0).2.getD g dGroup).2 ≠ Rel.none) := by
  have H := runGrouping_spec ws [] []
    (by intro p hp; simp at hp)
    (by intro j hj; simp at hj)
    (by intro g hg; simp at hg)
    (by intro g hg; simp at hg)
  simp only [List.length_nil, List.nil_append] at H
  obtain ⟨h1, h2, h3, h4, h5⟩ := H
  have hsnd : (ws.zip (runGrouping ws [] [] 0).1).map Prod.snd = (runGrouping ws [] [] 0).1 :=
    List.map_snd_zip _ _ (by omega)
  refine ⟨h1, h2, h3, ?_, h5⟩
  intro g hg
  rw [h4 g hg, hsnd]

theorem dPrev_eq : dPrev = (([] : List Char), (0 : Nat)) := rfl

theorem assignments_same_key (ws : List (List Char)) (i j : Nat) (hij : i < j)
    (hj : j < ws.length)
    (hkey : extractCore (ws.getD i []) = extractCore (ws.getD j []))
    (hne : extractCore (ws.getD i []) ≠ []) :
    (runGrouping ws [] [] 0).1.getD j 0 = (runGrouping ws [] [] 0).1.getD i 0 := by
  obtain ⟨hAlen, hbound, hinv, hcnt, hty⟩ := runGrouping_facts ws
  have hi : i < ws.length := lt_trans hij hj
  have hpllen : (ws.zip (runGrouping ws [] [] 0).1).length = ws.length := by
    rw [List.length_zip, hAlen, Nat.min_self]
  have hjpl : j < (ws.zip (runGrouping ws [] [] 0).1).length := by omega
  have hipl : i < (ws.zip (runGrouping ws [] [] 0).1).length := by omega
  have hgetj : (ws.zip (runGrouping ws [] [] 0).1).getD j dPrev =
      (ws.getD j [], (runGrouping ws [] [] 0).1.getD j 0) := by
    rw [dPrev_eq]; exact zip_getD _ _ _ _ _ hj (by omega)
  have hgeti : (ws.zip (runGrouping ws [] [] 0).1).getD i dPrev =
      (ws.getD i [], (runGrouping ws [] [] 0).1.getD i 0) := by
    rw [dPrev_eq]; exact zip_getD _ _ _ _ _ hi (by omega)
  have hr : (analyzeRhymeW (ws.getD i []) (ws.getD j [])).rhymes = true := by
    rw [analyzeRhymeW, hkey]
    exact analyzeRhymeSyl_self (hkey ▸ hne)
  have hinvj := hinv j hjpl
  rw [hgetj] at hinvj
  simp only at hinvj
  match hfm : findMatch ((ws.zip (runGrouping ws [] [] 0).1).take j) (ws.getD j []) with
  | Option.none =>
    exfalso
    have hall := (findMatch_none_iff _ _).mp hfm
    have htklen : ((ws.zip (runGrouping ws [] [] 0).1).take j).length = j := by
      rw [List.length_take]; omega
    have hmem : ((ws.zip (runGrouping ws [] [] 0).1).take j).getD i dPrev ∈
        ((ws.zip (runGrouping ws [] [] 0).1).take j) :=
      getD_mem _ _ _ (by omega)
    have htki : ((ws.zip (runGrouping ws [] [] 0).1).take j).getD i dPrev =
        (ws.getD i [], (runGrouping ws [] [] 0).1.getD i 0) := by
      rw [getD_take _ _ _ _ hij, hgeti]
    have := hall _ hmem
    rw [htki] at this
    simp only at this
    rw [hr] at this
    cases this
  | some (g, t) =>
    rw [hfm] at hinvj
    simp only at hinvj
    have hsplit : (ws.zip (runGrouping ws [] [] 0).1).take j =
        (ws.zip (runGrouping ws [] [] 0).1).take i ++
          (((ws.zip (runGrouping ws [] [] 0).1).drop i).take (j - i)) := by
      rw [← List.take_add]
      congr 1
      omega
    rw [hsplit, findMatch_append] at hfm
    match hfm1 : findMatch ((ws.zip (runGrouping ws [] [] 0).1).take i) (ws.getD j []) with
    | some r =>
      rw [hfm1] at hfm
      simp only at hfm
      cases hfm
      have hfm1' : findMatch ((ws.zip (runGrouping ws [] [] 0).1).take i) (ws.getD i []) =
          some (g, t) := by
        rw [findMatch_congr hkey]
        exact hfm1
      have hinvi := hinv i hipl
      rw [hgeti] at hinvi
      simp only at hinvi
      rw [hfm1'] at hinvi
      simp only at hinvi
      rw [hinvj, hinvi]
    | Option.none =>
      rw [hfm1] at hfm
      simp only at hfm
      have hdrop : (ws.zip (runGrouping ws [] [] 0).1).drop i =
          (ws.getD i [], (runGrouping ws [] [] 0).1.getD i 0) ::
            (ws.zip (runGrouping ws [] [] 0).1).drop (i + 1) := by
        rw [drop_eq_getD_cons dPrev hipl, hgeti]
      obtain ⟨m, hm'⟩ : ∃ m, j - i = m + 1 := ⟨j - i - 1, by omega⟩
      rw [hdrop, hm', List.take_succ_cons, findMatch] at hfm
      simp only [hr, if_true, Option.some.injEq, Prod.mk.injEq] at hfm
      obtain ⟨hg2, ht2⟩ := hfm
      rw [hinvj]
      exact hg2.symm

theorem assignments_first_match (ws : List (List Char)) (j : Nat) (hj : j < ws.length) :
    (∀ i, i < j →
      (analyzeRhymeW (ws.getD i []) (ws.getD j [])).rhymes = true →
      (∀ k, k < i → (analyzeRhymeW (ws.getD k []) (ws.getD j [])).rhymes = false) →
      (runGrouping ws [] [] 0).1.getD j 0 = (runGrouping ws [] [] 0).1.getD i 0) ∧
    ((∀ k, k < j → (analyzeRhymeW (ws.getD k []) (ws.getD j [])).rhymes = false) →
      ∀ k, k < j → (runGrouping ws [] [] 0).1.getD j 0 ≠ (runGrouping ws [] [] 0).1.getD k 0) := by
  obtain ⟨hAlen, hbound, hinv, hcnt, hty⟩ := runGrouping_facts ws
  have hpllen : (ws.zip (runGrouping ws [] [] 0).1).length = ws.length := by
    rw [List.length_zip, hAlen, Nat.min_self]
  have hjpl : j < (ws.zip (runGrouping ws [] [] 0).1).length := by omega
  have hgetD : ∀ k, k < ws.length → (ws.zip (runGrouping ws [] [] 0).1).getD k dPrev =
      (ws.getD k [], (runGrouping ws [] [] 0).1.getD k 0) := by
    intro k hk
    rw [dPrev_eq]
    exact zip_getD _ _ _ _ _ hk (by omega)
  have htklen : ((ws.zip (runGrouping ws [] [] 0).1).take j).length = j := by
    rw [List.length_take]; omega
  have hinvj := hinv j hjpl
  rw [hgetD j hj] at hinvj
  simp only at hinvj
  constructor
  · intro i hij hri hkfirst
    have hi : i < ws.length := lt_trans hij hj
    have htk : ∀ k, k < j → ((ws.zip (runGrouping ws [] [] 0).1).take j).getD k dPrev =
        (ws.getD k [], (runGrouping ws [] [] 0).1.getD k 0) := by
      intro k hk
      rw [getD_take _ _ _ _ hk, hgetD k (by omega)]
    have hfm := findMatch_first (l := (ws.zip (runGrouping ws [] [] 0).1).take j)
      (w := ws.getD j []) (i := i) (by omega)
      (by rw [htk i hij]; exact hri)
      (by
        intro k hki
        rw [htk k (lt_trans hki hij)]
        exact hkfirst k hki)
    rw [htk i hij] at hfm
    rw [hfm] at hinvj
    simp only at hinvj
    exact hinvj
  · intro hall k hk
    have hfm : findMatch ((ws.zip (runGrouping ws [] [] 0).1).take j) (ws.getD j []) =
        Option.none := by
      rw [findMatch_none_iff]
      intro p hp
      obtain ⟨⟨n, hn⟩, hget⟩ := List.mem_iff_get.mp hp
      have hnj : n < j := by omega
      have : p = (ws.getD n [], (runGrouping ws [] [] 0).1.getD n 0) := by
        rw [← hget, ← List.getD_eq_get _ dPrev hn, getD_take _ _ _ _ hnj,
          hgetD n (by omega)]
      rw [this]
      exact hall n hnj
    rw [hfm] at hinvj
    simp only at hinvj
    have := hinvj k hk
    rw [hgetD k (by omega)] at this
    exact this

/-! ## Shape of determineRhymePattern's output -/

theorem stanzaWords_length (vs : List Verse) : (stanzaWords vs).length = vs.length :=
  List.length_map _ _

theorem stanzaAssignments_length (vs : List Verse) :
    (stanzaAssignments vs).length = vs.length := by
  rw [stanzaAssignments, (runGrouping_facts (stanzaWords vs)).1, stanzaWords_length]

theorem stanzaWords_getD (vs : List Verse) (k : Nat) (hk : k < vs.length) :
    (stanzaWords vs).getD k [] = getLastWordL ((vs.getD k default).text).data := by
  rw [stanzaWords]
  exact map_getD _ _ _ _ default hk

theorem determine_fst_length (vs : List Verse) :
    (determineRhymePattern vs).1.length = vs.length := by
  rw [determineRhymePattern]
  simp only [List.length_map, List.length_zip, stanzaAssignments_length, Nat.min_self]

theorem determine_getD (vs : List Verse) (k : Nat) (hk : k < vs.length) :
    (determineRhymePattern vs).1.getD k default =
      { vs.getD k default with
        rhyme_index := String.mk [labelChar ((stanzaAssignments vs).getD k 0)],
        rhyme_type :=
          finalTypeStr ((stanzaGroups vs).getD ((stanzaAssignments vs).getD k 0) dGroup) } := by
  rw [determineRhymePattern]
  simp only
  rw [map_getD _ _ _ _ (default, 0) (by
    rw [List.length_zip, stanzaAssignments_length, Nat.min_self]; exact hk)]
  rw [zip_getD _ _ _ _ _ hk (by rw [stanzaAssignments_length]; exact hk)]

theorem determine_snd (vs : List Verse) :
    (determineRhymePattern vs).2 = String.mk ((stanzaAssignments vs).map labelChar) := by
  rw [determineRhymePattern]

/-! ## Pattern string structure (claim C9) -/

theorem foldl_append_strings (L : List String) :
    ∀ acc : String, (L.foldl (fun a b => a ++ b) acc).data =
      acc.data ++ (L.foldl (fun a b => a ++ b) "").data := by
  induction L with
  | nil => intro acc; simp
  | cons s L ih =>
    intro acc
    rw [List.foldl_cons, List.foldl_cons, ih (acc ++ s), ih ("" ++ s)]
    simp [String.data_append, List.append_assoc]

theorem join_cons (s : String) (L : List String) :
    String.join (s :: L) = s ++ String.join L := by
  apply String.ext
  rw [String.join, String.join, List.foldl_cons, String.data_append,
    foldl_append_strings L ("" ++ s)]
  simp [String.data_append]

theorem join_singleton_chars (l : List Char) :
    String.join (l.map (fun c => String.mk [c])) = String.mk l := by
  induction l with
  | nil => rfl
  | cons c cs ih =>
    rw [List.map_cons, join_cons, ih]
    apply String.ext
    rw [String.data_append]
    rfl

theorem determine_pattern_eq_join (vs : List Verse) :
    (determineRhymePattern vs).2 =
      String.join ((determineRhymePattern vs).1.map (fun v => v.rhyme_index)) := by
  rw [determine_snd, determineRhymePattern]
  simp only [List.map_map]
  have h1 : (vs.zip (stanzaAssignments vs)).map
      ((fun v => v.rhyme_index) ∘ (fun p : Verse × Nat =>
        { p.1 with
          rhyme_index := String.mk [labelChar p.2],
          rhyme_type := finalTypeStr ((stanzaGroups vs).getD p.2 dGroup) })) =
      (vs.zip (stanzaAssignments vs)).map (fun p => String.mk [labelChar p.2]) := by
    apply List.map_congr_left
    intro p _
    rfl
  rw [h1]
  have h2 : (vs.zip (stanzaAssignments vs)).map (fun p => String.mk [labelChar p.2]) =
      ((vs.zip (stanzaAssignments vs)).map Prod.snd).map (fun g => String.mk [labelChar g]) := by
    rw [List.map_map]
    rfl
  rw [h2, List.map_snd_zip _ _ (by rw [stanzaAssignments_length])]
  rw [show (stanzaAssignments vs).map (fun g => String.mk [labelChar g]) =
      ((stanzaAssignments vs).map labelChar).map (fun c => String.mk [c]) by
    rw [List.map_map]
    rfl]
  rw [join_singleton_chars]

theorem determine_snd_length (vs : List Verse) :
    (determineRhymePattern vs).2.length = vs.length := by
  rw [determine_snd]
  show ((stanzaAssignments vs).map labelChar).length = vs.length
  rw [List.length_map, stanzaAssignments_length]

/-! ## Singleton and multi-member group relations (claims C4, C10) -/

theorem stanzaAssignments_gid_lt (vs : List Verse) (k : Nat) (hk : k < vs.length) :
    (stanzaAssignments vs).getD k 0 < (stanzaGroups vs).length := by
  obtain ⟨hAlen, hbound, hinv, hcnt, hty⟩ := runGrouping_facts (stanzaWords vs)
  have hwlen : (stanzaWords vs).length = vs.length := stanzaWords_length vs
  have hpllen : ((stanzaWords vs).zip (stanzaAssignments vs)).length = vs.length := by
    rw [List.length_zip, stanzaAssignments_length, hwlen, Nat.min_self]
  have hmem := getD_mem ((stanzaWords vs).zip (stanzaAssignments vs)) k dPrev (by omega)
  have hget : ((stanzaWords vs).zip (stanzaAssignments vs)).getD k dPrev =
      ((stanzaWords vs).getD k [], (stanzaAssignments vs).getD k 0) := by
    rw [dPrev_eq]
    exact zip_getD _ _ _ _ _ (by omega) (by rw [stanzaAssignments_length]; omega)
  have := hbound _ hmem
  rw [hget] at this
  exact this

theorem group_size_eq_countP (vs : List Verse) (g : Nat)
    (hg : g < (stanzaGroups vs).length) :
    ((stanzaGroups vs).getD g dGroup).1.length =
      (stanzaAssignments vs).countP (fun x => x = g) :=
  (runGrouping_facts (stanzaWords vs)).2.2.2.1 g hg

theorem group_multi_rel_ne_none (vs : List Verse) (g : Nat)
    (hg : g < (stanzaGroups vs).length)
    (h2 : 2 ≤ ((stanzaGroups vs).getD g dGroup).1.length) :
    ((stanzaGroups vs).getD g dGroup).2 ≠ Rel.none :=
  (runGrouping_facts (stanzaWords vs)).2.2.2.2 g hg h2

theorem singleton_group_empty_type (vs : List Verse) (k : Nat) (hk : k < vs.length)
    (hcount : ((determineRhymePattern vs).1.filter
      (fun u => u.rhyme_index = ((determineRhymePattern vs).1.getD k default).rhyme_index)).length
      = 1) :
    ((determineRhymePattern vs).1.getD k default).rhyme_type = "" := by
  have hglt := stanzaAssignments_gid_lt vs k hk
  have hsize := group_size_eq_countP vs ((stanzaAssignments vs).getD k 0) hglt
  -- rewrite the filtered count as a count over the assignments
  rw [← List.countP_eq_length_filter] at hcount
  rw [determine_getD vs k hk] at hcount
  simp only at hcount
  rw [determineRhymePattern] at hcount
  simp only [List.countP_map] at hcount
  have hzlen : vs.length = (stanzaAssignments vs).length :=
    (stanzaAssignments_length vs).symm
  have hpred : ((fun u : Verse => decide (u.rhyme_index =
        String.mk [labelChar ((stanzaAssignments vs).getD k 0)])) ∘
      (fun p : Verse × Nat =>
        { p.1 with
          rhyme_index := String.mk [labelChar p.2],
          rhyme_type := finalTypeStr ((stanzaGroups vs).getD p.2 dGroup) })) =
      (fun pr : Verse × Nat => decide (String.mk [labelChar pr.2] =
        String.mk [labelChar ((stanzaAssignments vs).getD k 0)])) := by
    funext pr
    rfl
  rw [hpred] at hcount
  rw [countP_zip_snd vs (stanzaAssignments vs)
    (fun g => decide (String.mk [labelChar g] =
      String.mk [labelChar ((stanzaAssignments vs).getD k 0)])) hzlen] at hcount
  -- the gid-count is between 1 and the label-count
  have hmono : (stanzaAssignments vs).countP (fun x => x = (stanzaAssignments vs).getD k 0) ≤
      (stanzaAssignments vs).countP
        (fun g => String.mk [labelChar g] =
          String.mk [labelChar ((stanzaAssignments vs).getD k 0)]) := by
    apply List.countP_mono_left
    intro a _ ha
    simp only [decide_eq_true_eq] at ha ⊢
    rw [ha]
  have hpos : 0 < (stanzaAssignments vs).countP
      (fun x => x = (stanzaAssignments vs).getD k 0) := by
    rw [List.countP_pos_iff]
    refine ⟨(stanzaAssignments vs).getD k 0, ?_, by simp⟩
    exact getD_mem _ _ _ (by rw [stanzaAssignments_length]; exact hk)
  have hone : ((stanzaGroups vs).getD ((stanzaAssignments vs).getD k 0) dGroup).1.length = 1 := by
    omega
  rw [determine_getD vs k hk]
  simp only
  rw [finalTypeStr, if_pos hone]

theorem multi_group_has_relation (vs : List Verse) (k : Nat) (hk : k < vs.length)
    (hcount : 2 ≤ (stanzaAssignments vs).countP
      (fun g => g = (stanzaAssignments vs).getD k 0)) :
    (((determineRhymePattern vs).1.getD k default).rhyme_type = "rhyme" ∨
     ((determineRhymePattern vs).1.getD k default).rhyme_type = "assonance" ∨
     ((determineRhymePattern vs).1.getD k default).rhyme_type = "consonance") ∧
    ((stanzaGroups vs).getD ((stanzaAssignments vs).getD k 0) dGroup).2 ≠ Rel.none := by
  have hglt := stanzaAssignments_gid_lt vs k hk
  have hsize := group_size_eq_countP vs ((stanzaAssignments vs).getD k 0) hglt
  have h2 : 2 ≤ ((stanzaGroups vs).getD ((stanzaAssignments vs).getD k 0) dGroup).1.length := by
    omega
  have hne := group_multi_rel_ne_none vs ((stanzaAssignments vs).getD k 0) hglt h2
  refine ⟨?_, hne⟩
  rw [determine_getD vs k hk]
  simp only
  rw [finalTypeStr, if_neg (by omega)]
  rw [if_neg hne]
  cases hrel : ((stanzaGroups vs).getD ((stanzaAssignments vs).getD k 0) dGroup).2 with
  | rhyme => left; rfl
  | assonance => right; left; rfl
  | consonance => right; right; rfl
  | none => exact absurd hrel hne

/-! ## parseLyrics-level bridge -/

theorem mkStanza_verses (t : List Char) (j : Nat) :
    (mkStanza t j).verses = (determineRhymePattern (parseStanzaIntoVerses t j)).1 := rfl

theorem mkStanza_pattern (t : List Char) (j : Nat) :
    (mkStanza t j).rhyme_pattern = (determineRhymePattern (parseStanzaIntoVerses t j)).2 := rfl

theorem mem_buildStanzas {st : Stanza} :
    ∀ {l : List (List Char)} {i : Nat}, st ∈ buildStanzas l i → ∃ t j, st = mkStanza t j := by
  intro l
  induction l with
  | nil => intro i h; simp [buildStanzas] at h
  | cons x xs ih =>
    intro i h
    rw [buildStanzas] at h
    rcases List.mem_cons.mp h with h | h
    · exact ⟨x, i, h⟩
    · exact ih h

theorem mem_parseLyrics {lyrics : String} {st : Stanza}
    (h : st ∈ (parseLyrics lyrics).stanzas) : ∃ t j, st = mkStanza t j :=
  mem_buildStanzas h

/-- C9 (confirmed): for every parsed stanza, the rhyme_pattern string has
exactly one character per verse, and it is the ordered concatenation of the
verses' rhyme_index labels. -/
theorem claim_C9 (lyrics : String) (st : Stanza) (h : st ∈ (parseLyrics lyrics).stanzas) :
    st.rhyme_pattern.length = st.verses.length ∧
    st.rhyme_pattern = String.join (st.verses.map (fun v => v.rhyme_index)) := by
  obtain ⟨t, j, rfl⟩ := mem_parseLyrics h
  rw [mkStanza_pattern, mkStanza_verses]
  constructor
  · rw [determine_snd_length, determine_fst_length]
  · exact determine_pattern_eq_join _

/-- C4 (confirmed): in every parsed stanza, a verse belonging to a rhyme
group with exactly one member (exactly one verse carries its rhyme_index
label) has rhyme_type equal to the empty string, never "rhyme". -/
theorem claim_C4 (lyrics : String) (st : Stanza) (h : st ∈ (parseLyrics lyrics).stanzas)
    (v : Verse) (hv : v ∈ st.verses)
    (hone : (st.verses.filter (fun u => u.rhyme_index = v.rhyme_index)).length = 1) :
    v.rhyme_type = "" := by
  obtain ⟨t, j0, rfl⟩ := mem_parseLyrics h
  rw [mkStanza_verses] at hv hone
  obtain ⟨⟨n, hn⟩, hget⟩ := List.mem_iff_get.mp hv
  have hv' : v = (determineRhymePattern (parseStanzaIntoVerses t j0)).1.getD n default := by
    rw [List.getD_eq_get _ default hn, hget]
  have hnv : n < (parseStanzaIntoVerses t j0).length := by
    rw [← determine_fst_length (parseStanzaIntoVerses t j0)]
    exact hn
  rw [hv']
  apply singleton_group_empty_type _ _ hnv
  rw [← hv']
  exact hone

theorem extractRhymingSyllable_data (s : String) :
    (extractRhymingSyllable s).data = extractCore s.data := rfl

theorem getLastWord_data (s : String) : (getLastWord s).data = getLastWordL s.data := rfl

/-- C2 (amended): in every parsed stanza, if a verse's last word has the
same *non-empty* extracted RhymeKey as a prior verse's last word, the later
verse is assigned the same rhyme-group label as that prior verse. (The
original claim without the non-emptiness condition is refuted by
`claim_C2_counterexample`: two verses whose keys are both empty open
separate groups.) -/
theorem claim_C2_amended (lyrics : String) (st : Stanza) (h : st ∈ (parseLyrics lyrics).stanzas)
    (i j : Nat) (hij : i < j) (hj : j < st.verses.length)
    (hkey : extractRhymingSyllable (getLastWord (st.verses.getD i default).text) =
      extractRhymingSyllable (getLastWord (st.verses.getD j default).text))
    (hne : extractRhymingSyllable (getLastWord (st.verses.getD i default).text) ≠ "") :
    (st.verses.getD j default).rhyme_index = (st.verses.getD i default).rhyme_index := by
  obtain ⟨t, j0, rfl⟩ := mem_parseLyrics h
  rw [mkStanza_verses] at hj hkey hne ⊢
  have hjv : j < (parseStanzaIntoVerses t j0).length := by
    rw [← determine_fst_length (parseStanzaIntoVerses t j0)]
    exact hj
  have hiv : i < (parseStanzaIntoVerses t j0).length := lt_trans hij hjv
  rw [determine_getD _ _ hjv] at hkey
  rw [determine_getD _ _ hiv] at hkey hne
  simp only at hkey hne
  have hkey' : extractCore ((stanzaWords (parseStanzaIntoVerses t j0)).getD i []) =
      extractCore ((stanzaWords (parseStanzaIntoVerses t j0)).getD j []) := by
    rw [stanzaWords_getD _ _ hiv, stanzaWords_getD _ _ hjv]
    have hd := congrArg String.data hkey
    rw [extractRhymingSyllable_data, extractRhymingSyllable_data,
      getLastWord_data, getLastWord_data] at hd
    exact hd
  have hne' : extractCore ((stanzaWords (parseStanzaIntoVerses t j0)).getD i []) ≠ [] := by
    rw [stanzaWords_getD _ _ hiv]
    intro hc
    apply hne
    apply String.ext
    rw [extractRhymingSyllable_data, getLastWord_data, hc]
  have hsame := assignments_same_key (stanzaWords (parseStanzaIntoVerses t j0)) i j hij
    (by rw [stanzaWords_length]; exact hjv) hkey' hne'
  rw [determine_getD _ _ hjv, determine_getD _ _ hiv]
  simp only
  rw [show (stanzaAssignments (parseStanzaIntoVerses t j0)).getD j 0 =
    (stanzaAssignments (parseStanzaIntoVerses t j0)).getD i 0 from hsame]

/-- C1 (amended): during stanza grouping the decision whether a verse joins
a previous verse's group is exactly the *typed* relation test
(`analyzeRhyme`: perfect-rhyme groups, assonance groups, or a shared
trailing consonant cluster), not the broad `wordsRhyme` test: a verse joins
the group of the first previous verse whose last word `analyzeRhyme`
reports as rhyming, and it opens a fresh group (distinct from every
earlier verse's) exactly when no previous verse's last word rhymes under
`analyzeRhyme`. -/
theorem claim_C1_amended (vs : List Verse) (j : Nat) (hj : j < vs.length) :
    (∀ i, i < j →
      (analyzeRhyme (getLastWord (vs.getD i default).text)
        (getLastWord (vs.getD j default).text)).rhymes = true →
      (∀ k, k < i → (analyzeRhyme (getLastWord (vs.getD k default).text)
        (getLastWord (vs.getD j default).text)).rhymes = false) →
      (stanzaAssignments vs).getD j 0 = (stanzaAssignments vs).getD i 0) ∧
    ((∀ k, k < j → (analyzeRhyme (getLastWord (vs.getD k default).text)
        (getLastWord (vs.getD j default).text)).rhymes = false) →
      ∀ k, k < j → (stanzaAssignments vs).getD j 0 ≠ (stanzaAssignments vs).getD k 0) := by
  have hjw : j < (stanzaWords vs).length := by rw [stanzaWords_length]; exact hj
  have base := assignments_first_match (stanzaWords vs) j hjw
  constructor
  · intro i hij hri hkf
    exact base.1 i hij
      (by
        rw [stanzaWords_getD _ _ (lt_trans hij hj), stanzaWords_getD _ _ hj]
        exact hri)
      (fun k hki => by
        rw [stanzaWords_getD _ _ (lt_trans hki (lt_trans hij hj)), stanzaWords_getD _ _ hj]
        exact hkf k hki)
  · intro hall k hk
    exact base.2
      (fun m hm => by
        rw [stanzaWords_getD _ _ (lt_trans hm hj), stanzaWords_getD _ _ hj]
        exact hall m hm) k hk


/-! ## The remaining claim theorems, counterexamples and witnesses -/

/-- C1 counterexample: the broad relation test (`wordsRhyme`) says "hill"
and "ball" do not rhyme, yet grouping puts them in the same group "AA",
because the join decision actually uses the typed test `analyzeRhyme`
(which reports a consonance here). So the join decision is not the broad
relation test. -/
theorem claim_C1_counterexample :
    wordsRhyme "hill" "ball" = false ∧
    (analyzeRhyme "hill" "ball").rhymes = true ∧
    (parseLyrics "hill\nball").stanzas.map (fun s => s.rhyme_pattern) = ["AA"] := by
  refine ⟨by decide, by decide, by decide⟩

/-- C1 witness: the amended claim applied to the "hill"/"ball" stanza with
the concrete first match at index 0. -/
theorem claim_C1_witness :
    (stanzaAssignments (parseStanzaIntoVerses ("hill\nball".data) 0)).getD 1 0 =
      (stanzaAssignments (parseStanzaIntoVerses ("hill\nball".data) 0)).getD 0 0 :=
  (claim_C1_amended (parseStanzaIntoVerses ("hill\nball".data) 0) 1 (by decide)).1
    0 (by decide) (by decide) (fun k hk => absurd hk (Nat.not_lt_zero k))

/-- C2 counterexample: the last words of two verses "!!!" and "!!!" have
the same extracted RhymeKey (both empty), yet the verses are assigned
different rhyme-group labels "A" and "B", refuting the direct-match
guarantee as stated "for all inputs". -/
theorem claim_C2_counterexample :
    (parseLyrics "!!!\n!!!").stanzas.map
      (fun s => s.verses.map (fun v => (v.rhyming_syllable, v.rhyme_index))) =
      [[("", "A"), ("", "B")]] := by decide

/-- C2 witness: the amended claim applied to the stanza
"star"/"car", whose last words share the non-empty key "ar". -/
theorem claim_C2_witness :
    (((parseLyrics "star\ncar").stanzas.getD 0 default).verses.getD 1 default).rhyme_index =
      (((parseLyrics "star\ncar").stanzas.getD 0 default).verses.getD 0 default).rhyme_index :=
  claim_C2_amended "star\ncar" ((parseLyrics "star\ncar").stanzas.getD 0 default)
    (by decide) 0 1 (by decide) (by decide) (by decide) (by decide)

/-- C3 counterexample: in the stanza "topic"/"mac"/"milwaukee" the group
first records "consonance" (topic/mac), and the later assonance join
(topic/milwaukee) *replaces* it: the final group relation is "assonance",
refuting "an assonance join never replaces a previously recorded
consonance". The last conjunct isolates the update rule itself. -/
theorem claim_C3_counterexample :
    (analyzeRhyme "topic" "mac").rtype = Rel.consonance ∧
    (analyzeRhyme "topic" "milwaukee").rtype = Rel.assonance ∧
    (parseLyrics "topic\nmac").stanzas.map
      (fun s => s.verses.map (fun v => v.rhyme_type)) = [["consonance", "consonance"]] ∧
    (parseLyrics "topic\nmac\nmilwaukee").stanzas.map
      (fun s => s.verses.map (fun v => v.rhyme_type)) =
      [["assonance", "assonance", "assonance"]] ∧
    updType Rel.consonance Rel.assonance = Rel.assonance := by
  refine ⟨by decide, by decide, by decide, by decide, by decide⟩

/-- C3 (amended): the aggregate-relation update of the grouping loop
satisfies: once "rhyme" is recorded it is never replaced; an "assonance"
join overwrites any current relation other than "rhyme" (in particular it
replaces "consonance"); a "consonance" join changes the relation only when
the current relation is "none". -/
theorem claim_C3_amended (cur t : Rel) :
    updType Rel.rhyme t = Rel.rhyme ∧
    (cur ≠ Rel.rhyme → updType cur Rel.assonance = Rel.assonance) ∧
    (updType cur Rel.consonance = if cur = Rel.none then Rel.consonance else cur) ∧
    updType cur Rel.rhyme = Rel.rhyme := by
  cases cur <;> cases t <;>
    exact ⟨by decide, fun h => by first | exact absurd rfl h | decide, by decide, by decide⟩

/-- C3 witness: an assonance join does replace a recorded consonance. -/
theorem claim_C3_witness : updType Rel.consonance Rel.assonance = Rel.assonance :=
  (claim_C3_amended Rel.consonance Rel.rhyme).2.1 (by decide)

/-- C4 witness: in the stanza "a"/"b" both groups are singletons and the
first verse reports an empty rhyme_type. -/
theorem claim_C4_witness :
    (((parseLyrics "a\nb").stanzas.getD 0 default).verses.getD 0 default).rhyme_type = "" :=
  claim_C4 "a\nb" ((parseLyrics "a\nb").stanzas.getD 0 default) (by decide)
    (((parseLyrics "a\nb").stanzas.getD 0 default).verses.getD 0 default)
    (by decide) (by decide)

/-- C5 counterexample: "!!!" is non-empty and contains no whitespace at
all, yet the syllable counter returns 0, refuting "0 only for
empty/whitespace-only input" and "a non-empty line consisting only of
punctuation returns at least 1". -/
theorem claim_C5_counterexample :
    countSyllables "!!!" = 0 ∧ "!!!" ≠ "" ∧
    ("!!!".data.all (fun c => !isWsJS c)) = true := by
  refine ⟨by decide, by decide, by decide⟩

/-- C5 (amended): the syllable counter returns 0 exactly when the input
contains no substantive character (word character, apostrophe, or accented
vowel, after lower-casing) — so it returns at least 1 whenever some
character survives the cleaning, but 0 on non-empty lines made only of
punctuation. -/
theorem claim_C5_amended (t : String) :
    countSyllables t = 0 ↔ ∀ c ∈ t.data, substantive (toLowerJS c) = false :=
  countSyllablesL_eq_zero_iff t.data

/-- C6: on the documented input "Roses are red / Violets are blue / Sugar
is sweet / And so are you" the code produces the rhyme pattern "ABCD" —
verse 4 opens a new group "D" instead of joining verse 2's group "B" —
because the typed test finds no relation between the keys of "blue" and
"you". This contradicts the repository's own README, which documents the
pattern "ABCB" for this exact input. -/
theorem claim_C6 :
    (parseLyrics "Roses are red\nViolets are blue\nSugar is sweet\nAnd so are you").stanzas.map
      (fun s => s.rhyme_pattern) = ["ABCD"] ∧
    (parseLyrics "Roses are red\nViolets are blue\nSugar is sweet\nAnd so are you").stanzas.map
      (fun s => s.verses.map (fun v => v.rhyme_index)) = [["A", "B", "C", "D"]] ∧
    (analyzeRhyme "blue" "you").rhymes = false := by
  refine ⟨by decide, by decide, by decide⟩

/-- C7 (confirmed): both rhyme classification tests are symmetric in their
two arguments — the broad boolean test `wordsRhyme` and the typed
classification `analyzeRhyme` give the same answer on (a, b) and (b, a). -/
theorem claim_C7 (a b : String) :
    wordsRhyme a b = wordsRhyme b a ∧ analyzeRhyme a b = analyzeRhyme b a :=
  ⟨wordsRhymeW_symm a.data b.data,
   analyzeRhymeSyl_symm (extractCore a.data) (extractCore b.data)⟩

/-- C8 counterexample: the special-case word "my" maps to the key "igh",
which is longer than the word itself, refuting "extract(w) returns a
string no longer than w" for every word. -/
theorem claim_C8_counterexample :
    ¬((extractRhymingSyllable "my").length ≤ "my".length) := by decide

/-- C8 (amended): for every word whose cleaned lower-cased form is not a
key of the special-case exception table, the extracted rhyme key is no
longer than the word; extraction is deterministic (it is a function of the
input word alone). -/
theorem claim_C8_amended (w : String)
    (h : tlookup (cleanRhymeWord w.data) specialTable = Option.none) :
    (extractRhymingSyllable w).length ≤ w.length ∧
    extractRhymingSyllable w = extractRhymingSyllable w := by
  refine ⟨?_, rfl⟩
  show (extractCore w.data).length ≤ w.data.length
  exact extractCore_length h

/-- C8 witness: the amended claim applied to "hello" (not special-cased). -/
theorem claim_C8_witness :
    tlookup (cleanRhymeWord ("hello".data)) specialTable = Option.none ∧
    (extractRhymingSyllable "hello").length ≤ "hello".length :=
  ⟨by decide, (claim_C8_amended "hello" (by decide)).1⟩

/-- C9 witness: the invariant applied to the parsed stanza of "a"/"b". -/
theorem claim_C9_witness :
    ((parseLyrics "a\nb").stanzas.getD 0 default).rhyme_pattern.length =
      ((parseLyrics "a\nb").stanzas.getD 0 default).verses.length ∧
    ((parseLyrics "a\nb").stanzas.getD 0 default).rhyme_pattern =
      String.join (((parseLyrics "a\nb").stanzas.getD 0 default).verses.map
        (fun v => v.rhyme_index)) :=
  claim_C9 "a\nb" ((parseLyrics "a\nb").stanzas.getD 0 default) (by decide)

/-- C10 (confirmed): in every stanza grouping, a verse belonging to a
rhyme group with two or more members (two or more verses share its group
id) has rhyme_type "rhyme", "assonance" or "consonance" — never "none"
and never the empty string — and moreover the group's pre-finalization
running relation is never `Rel.none`, so the finalization branch that
promotes a multi-member group's "none" to "rhyme" is unreachable. -/
theorem claim_C10 (vs : List Verse) (k : Nat) (hk : k < vs.length)
    (hcount : 2 ≤ (stanzaAssignments vs).countP
      (fun g => g = (stanzaAssignments vs).getD k 0)) :
    (((determineRhymePattern vs).1.getD k default).rhyme_type = "rhyme" ∨
     ((determineRhymePattern vs).1.getD k default).rhyme_type = "assonance" ∨
     ((determineRhymePattern vs).1.getD k default).rhyme_type = "consonance") ∧
    ((stanzaGroups vs).getD ((stanzaAssignments vs).getD k 0) dGroup).2 ≠ Rel.none :=
  multi_group_has_relation vs k hk hcount

/-- C10 witness: the stanza "star"/"car" has one two-member group, whose
verses report "rhyme" and whose running relation is not none. -/
theorem claim_C10_witness :
    (((determineRhymePattern (parseStanzaIntoVerses ("star\ncar".data) 0)).1.getD 0
        default).rhyme_type = "rhyme" ∨
     ((determineRhymePattern (parseStanzaIntoVerses ("star\ncar".data) 0)).1.getD 0
        default).rhyme_type = "assonance" ∨
     ((determineRhymePattern (parseStanzaIntoVerses ("star\ncar".data) 0)).1.getD 0
        default).rhyme_type = "consonance") ∧
    ((stanzaGroups (parseStanzaIntoVerses ("star\ncar".data) 0)).getD
      ((stanzaAssignments (parseStanzaIntoVerses ("star\ncar".data) 0)).getD 0 0)
      dGroup).2 ≠ Rel.none :=
  claim_C10 (parseStanzaIntoVerses ("star\ncar".data) 0) 0 (by decide) (by decide)

end Prosody
